import Mathlib

/-!
Verification of the video analysis pipeline of the `insta_dm` repository
(`ai_microservice/services/video_service.py` and
`ai_microservice/services/face_service.py`), shallowly embedded in Lean 4.

Modelling conventions, used throughout:
* Python floats are modelled as exact rationals (`ℚ`); `int` as `ℤ`/`ℕ`.
* Python 3 `round` (banker's rounding) is modelled by `pyRound`.
* Python dict-valued detection records are modelled as typed structures;
  the defensive `dict(item)` shallow copies of the source are therefore the
  identity and value equality is structural equality.
* The SHA-1 hexdigest frame signature is modelled as the (collision-free,
  deterministic) content of the prepared frame itself, and the colon-joined
  cache key string `f"{feature}:{signature}"` as the pair
  `(featureName, signature)`; the string form is injective in its two parts,
  so the two key spaces are isomorphic.
* Pixel-level resampling (`cv2.resize` content, BGR→gray conversion) is
  abstracted: a frame carries its grayscale intensity sequence, which
  resizing carries through unchanged.  All control decisions of the
  pipeline depend only on dimensions and on the grayscale content, which
  are modelled faithfully.
-/

namespace VideoPipeline

/-- Python 3 `round` on a rational: round half to even (banker's rounding).
In the source, `int(round(x))` appears; in Python 3 `round` without a digits
argument already returns an `int`, so the outer `int(...)` is the identity. -/
def pyRound (x : ℚ) : ℤ :=
  if x - ⌊x⌋ < 1/2 then ⌊x⌋
  else if 1/2 < x - ⌊x⌋ then ⌊x⌋ + 1
  else if 2 ∣ ⌊x⌋ then ⌊x⌋ else ⌊x⌋ + 1

/-- Python `round(x, 3)` used for the static-prefilter diagnostics. -/
def pyRound3 (x : ℚ) : ℚ := (pyRound (x * 1000) : ℚ) / 1000

/-- Python `sorted(set(xs))` for naturals: sort ascending, drop duplicates. -/
def pySortedSet (l : List ℕ) : List ℕ :=
  (l.insertionSort (· ≤ ·)).dedup

/-- Python `range(0, stop, step)` (for `step ≥ 1`): the `⌈stop/step⌉`
multiples of `step` below `stop`. -/
def rangeStep (stop step : ℕ) : List ℕ :=
  (List.range ((stop + step - 1) / step)).map (· * step)

/-- Source `VideoService._limit_frame_indices`: clean the index list into a
sorted set of nonnegative indices; if it fits the `maxFrames` budget return
it, else pick `maxFrames` linearly spaced positions (numpy `linspace` with
nearest-even rounding, computed here in exact rational arithmetic), then
dedupe and re-sort. -/
def limitFrameIndices (indices : List ℤ) (maxFrames : ℕ) : List ℕ :=
  let clean := pySortedSet (indices.map (fun idx => (max 0 idx).toNat))
  if clean.length ≤ maxFrames then clean
  else if maxFrames ≤ 1 then [clean.headD 0]
  else
    pySortedSet
      (((List.range maxFrames).map
          (fun (k : ℕ) => ((k : ℚ) * ((clean.length : ℚ) - 1)) / ((maxFrames : ℚ) - 1))).map
        (fun pos => clean.getD (pyRound pos).toNat 0))

/-- The `list(range(0, total_frames, frame_interval))` of
`_sampling_frame_indices`, with `frame_interval = max(round(fps·rate), 1)`. -/
def samplingBase (totalFrames : ℤ) (fps : ℚ) (sampleRate : ℕ) : List ℤ :=
  (rangeStep totalFrames.toNat ((max (pyRound (fps * (sampleRate : ℚ))) 1).toNat)).map
    Int.ofNat

/-- The raw index list of `_sampling_frame_indices` before limiting: the
base range, `[0]` as a fallback if it came out empty, and the last valid
index appended when a single index met `total_frames > 1`. -/
def samplingRawIndices (totalFrames : ℤ) (fps : ℚ) (sampleRate : ℕ) : List ℤ :=
  let indices := samplingBase totalFrames fps sampleRate
  let indices := if indices.isEmpty then [0] else indices
  if indices.length = 1 ∧ 1 < totalFrames then indices ++ [totalFrames - 1] else indices

/-- Source `VideoService._sampling_frame_indices`: `[0]` for degenerate
streams, otherwise the raw index list limited to the `maxFrames` budget. -/
def samplingFrameIndices (maxFrames : ℕ) (totalFrames : ℤ) (fps : ℚ)
    (sampleRate : ℕ) : List ℕ :=
  if totalFrames ≤ 0 then [0]
  else limitFrameIndices (samplingRawIndices totalFrames fps sampleRate) maxFrames

/-- A decoded video frame: its dimensions and (abstracted) grayscale pixel
content.  See the module docstring for the pixel-content convention. -/
structure Frame where
  width : ℕ
  height : ℕ
  gray : List ℕ
deriving DecidableEq

/-- Source `VideoService._prepare_frame`: pass empty frames through, pass
frames within the width bound through, otherwise scale down to
`maxFrameWidth` preserving the aspect ratio (`INTER_AREA` content
resampling abstracted; dimensions are exact). -/
def prepareFrame (maxFrameWidth : ℕ) (frame : Frame) : Frame :=
  if frame.width * frame.height = 0 then frame
  else if frame.width ≤ maxFrameWidth then frame
  else
    let ratio : ℚ := (maxFrameWidth : ℚ) / (frame.width : ℚ)
    let resizedHeight := max 1 (pyRound ((frame.height : ℚ) * ratio)).toNat
    { width := maxFrameWidth, height := resizedHeight, gray := frame.gray }

/-- Source `VideoService._frame_signature`: a deterministic content hash of
the prepared frame; SHA-1 is modelled as the collision-free identity on
frame content. -/
def frameSignature (frame : Frame) : Frame := frame

/-- Cache keys: the pair modelling of `f"{feature_name}:{frame_signature}"`. -/
abbrev CacheKey : Type := String × Frame

/-- The `OrderedDict` backing the inference cache, oldest entry first
(`popitem(last=False)` removes the head, `move_to_end` moves to the tail). -/
abbrev Cache (α : Type) : Type := List (CacheKey × α)

/-- Plain association lookup in the ordered map (no recency side effect). -/
def cacheLookup {α : Type} (cache : Cache α) (key : CacheKey) : Option α :=
  (cache.find? (fun p => decide (p.1 = key))).map (fun p => p.2)

/-- `OrderedDict.move_to_end(key)`: re-insert the key's entry at the
most-recently-used end. -/
def moveToEnd {α : Type} (cache : Cache α) (key : CacheKey) : Cache α :=
  match cache.find? (fun p => decide (p.1 = key)) with
  | none => cache
  | some entry => cache.eraseP (fun p => decide (p.1 = key)) ++ [entry]

/-- `self._frame_cache[key] = value`: overwrite in place when present,
append otherwise. -/
def cacheAssign {α : Type} (cache : Cache α) (key : CacheKey) (value : α) : Cache α :=
  if (cache.find? (fun p => decide (p.1 = key))).isSome then
    cache.map (fun p => if p.1 = key then (key, value) else p)
  else cache ++ [(key, value)]

/-- The eviction loop `while len(cache) > bound: cache.popitem(last=False)`:
drop oldest entries until the bound is met. -/
def evictOldest {α : Type} (cap : ℕ) : Cache α → Cache α
  | [] => []
  | entry :: rest =>
    if (entry :: rest).length ≤ cap then entry :: rest else evictOldest cap rest

/-- Source `VideoService._cache_get`: a bound of 0 disables the cache; a hit
marks the entry most-recently-used and returns (a defensive copy of, here:
exactly) the stored record list. -/
def cacheGet {α : Type} (cap : ℕ) (cache : Cache α) (key : CacheKey) :
    Option α × Cache α :=
  if cap = 0 then (none, cache)
  else
    match cacheLookup cache key with
    | none => (none, cache)
    | some value => (some value, moveToEnd cache key)

/-- Source `VideoService._cache_set`: a bound of 0 never stores; otherwise
store (a defensive copy of, here: exactly) the value, mark it
most-recently-used and evict oldest entries beyond the bound. -/
def cacheSet {α : Type} (cap : ℕ) (cache : Cache α) (key : CacheKey) (value : α) :
    Cache α :=
  if cap = 0 then cache
  else evictOldest cap (moveToEnd (cacheAssign cache key value) key)

/-- Source `VideoService._cached_inference`: consult the cache; on a hit
return the cached records without invoking the provider (`Bool` result field
= "provider was invoked"); on a miss invoke the provider — whose exception,
modelled as `Except.error`, propagates — and populate the cache. -/
def cachedInference {α : Type} (cap : ℕ) (cache : Cache α)
    (featureName : String) (frameSig : Frame)
    (inferFn : Unit → Except String α) :
    Except String (α × Cache α × Bool) :=
  let cacheKey : CacheKey := (featureName, frameSig)
  match cacheGet cap cache cacheKey with
  | (some cached, cache1) => .ok (cached, cache1, false)
  | (none, cache1) =>
    match inferFn () with
    | .error e => .error e
    | .ok value => .ok (value, cacheSet cap cache1 cacheKey value, true)

/-- One get/put event against the shared inference cache, for stating the
LRU invariants over arbitrary operation sequences. -/
inductive CacheOp (α : Type) where
  | get (key : CacheKey)
  | put (key : CacheKey) (value : α)

/-- Apply one cache operation, keeping only the resulting table state. -/
def applyOp {α : Type} (cap : ℕ) (cache : Cache α) : CacheOp α → Cache α
  | .get key => (cacheGet cap cache key).2
  | .put key value => cacheSet cap cache key value

/-- Run a sequence of cache operations from a given table state. -/
def applyOps {α : Type} (cap : ℕ) (cache : Cache α) (ops : List (CacheOp α)) : Cache α :=
  ops.foldl (applyOp cap) cache

/-- Whether an operation writes to the given key. -/
def CacheOp.isPutOn {α : Type} (key : CacheKey) : CacheOp α → Prop
  | .get _ => False
  | .put k _ => k = key

/-- An object-label detection row as produced by the vision Capability
Provider for one frame (timestamp not yet attached). -/
structure LabelRow where
  label : String
  confidence : ℚ
deriving DecidableEq

/-- A label record after `_analyze_frame` stamped it with the frame
timestamp. -/
structure LabelRec where
  label : String
  confidence : ℚ
  timestamp : ℚ
deriving DecidableEq

/-- A bounding box `[x1, y1, x2, y2]`. -/
structure BBox where
  x1 : ℚ
  y1 : ℚ
  x2 : ℚ
  y2 : ℚ
deriving DecidableEq

/-- A face detection row as produced by the face Capability Provider
(landmark/age/gender side fields of the source rows carry no logic and are
omitted). -/
structure FaceRow where
  bbox : BBox
  confidence : ℚ
deriving DecidableEq

/-- A face record after `_analyze_frame` stamped it with the frame
timestamp. -/
structure FaceRec where
  bbox : BBox
  confidence : ℚ
  timestamp : ℚ
deriving DecidableEq

/-- A text span row as produced by the OCR Capability Provider. -/
structure TextRow where
  text : String
  confidence : ℚ
deriving DecidableEq

/-- A text record after `_analyze_frame` stamped it with the frame
timestamp. -/
structure TextRec where
  text : String
  confidence : ℚ
  timestamp : ℚ
deriving DecidableEq

/-- Attach the frame timestamp to label rows (`row['timestamp'] = timestamp`). -/
def annotateLabels (rows : List LabelRow) (timestamp : ℚ) : List LabelRec :=
  rows.map (fun row => { label := row.label, confidence := row.confidence, timestamp := timestamp })

/-- Attach the frame timestamp to face rows. -/
def annotateFaces (rows : List FaceRow) (timestamp : ℚ) : List FaceRec :=
  rows.map (fun row => { bbox := row.bbox, confidence := row.confidence, timestamp := timestamp })

/-- Attach the frame timestamp to text rows. -/
def annotateTexts (rows : List TextRow) (timestamp : ℚ) : List TextRec :=
  rows.map (fun row => { text := row.text, confidence := row.confidence, timestamp := timestamp })

/-- One aggregated label group of `_post_process_results`. -/
structure LabelGroup where
  label : String
  count : ℕ
  maxConfidence : ℚ
  timestamps : List ℚ
deriving DecidableEq

/-- One pass of the label aggregation loop of `_post_process_results`:
create the group with zeroed fields if absent, then bump the count, fold the
confidence into the running maximum and append the timestamp. -/
def labelStep (acc : List LabelGroup) (r : LabelRec) : List LabelGroup :=
  let acc :=
    if acc.any (fun g => g.label == r.label) then acc
    else acc ++ [{ label := r.label, count := 0, maxConfidence := 0, timestamps := [] }]
  acc.map (fun g =>
    if g.label == r.label then
      { g with
        count := g.count + 1,
        maxConfidence := max g.maxConfidence r.confidence,
        timestamps := g.timestamps ++ [r.timestamp] }
    else g)

/-- The descending lexicographic order on `(count, maxConfidence)` used by
`sorted(..., key=lambda x: (x['count'], x['max_confidence']), reverse=True)`. -/
def labelKeyGE (a b : LabelGroup) : Prop :=
  b.count < a.count ∨ (a.count = b.count ∧ b.maxConfidence ≤ a.maxConfidence)

instance : DecidableRel labelKeyGE := fun a b =>
  inferInstanceAs (Decidable (_ ∨ _))

instance : IsTotal LabelGroup labelKeyGE where
  total a b := by
    unfold labelKeyGE
    rcases Nat.lt_trichotomy a.count b.count with h | h | h
    · exact Or.inr (Or.inl h)
    · rcases le_total b.maxConfidence a.maxConfidence with h2 | h2
      · exact Or.inl (Or.inr ⟨h, h2⟩)
      · exact Or.inr (Or.inr ⟨h.symm, h2⟩)
    · exact Or.inl (Or.inl h)

instance : IsTrans LabelGroup labelKeyGE where
  trans a b c hab hbc := by
    unfold labelKeyGE at *
    rcases hab with h1 | ⟨h1, h1q⟩ <;> rcases hbc with h2 | ⟨h2, h2q⟩
    · exact Or.inl (h2.trans h1)
    · exact Or.inl (by omega)
    · exact Or.inl (by omega)
    · exact Or.inr ⟨h1.trans h2, h2q.trans h1q⟩

/-- Label aggregation of `_post_process_results`: group the accumulated
records by label name (a Python dict, insertion-ordered), sort the groups by
`(count, max_confidence)` descending (Python's stable sort) and keep the top
20.  When no label records accumulated the list stays empty. -/
def postProcessLabels (labels : List LabelRec) : List LabelGroup :=
  if labels.isEmpty then []
  else (List.insertionSort labelKeyGE (labels.foldl labelStep [])).take 20

/-- Source `FaceService._iou`: intersection-over-union of two boxes with the
source's zero guards for empty intersection and degenerate denominators. -/
def iou (boxA boxB : BBox) : ℚ :=
  let interX1 := max boxA.x1 boxB.x1
  let interY1 := max boxA.y1 boxB.y1
  let interX2 := min boxA.x2 boxB.x2
  let interY2 := min boxA.y2 boxB.y2
  let interW := max 0 (interX2 - interX1)
  let interH := max 0 (interY2 - interY1)
  let interArea := interW * interH
  if interArea ≤ 0 then 0
  else
    let areaA := max 0 (boxA.x2 - boxA.x1) * max 0 (boxA.y2 - boxA.y1)
    let areaB := max 0 (boxB.x2 - boxB.x1) * max 0 (boxB.y2 - boxB.y1)
    let denom := areaA + areaB - interArea
    if denom ≤ 0 then 0 else interArea / denom

/-- Descending confidence, the sort key of `_dedupe_faces` (Python's stable
`sorted(..., reverse=True)`). -/
def faceConfGE (a b : FaceRow) : Prop := b.confidence ≤ a.confidence

instance : DecidableRel faceConfGE := fun a b =>
  inferInstanceAs (Decidable (_ ≤ _))

instance : IsTotal FaceRow faceConfGE where
  total a b := le_total b.confidence a.confidence

instance : IsTrans FaceRow faceConfGE where
  trans _ _ _ hab hbc := le_trans hbc hab

/-- The greedy body of `_dedupe_faces`: skip the candidate when it overlaps
an already-kept detection with IoU > 0.35, keep it otherwise. -/
def dedupKeep (kept : List FaceRow) (candidate : FaceRow) : List FaceRow :=
  if kept.any (fun current => decide ((35/100 : ℚ) < iou candidate.bbox current.bbox)) then kept
  else kept ++ [candidate]

/-- Source `FaceService._dedupe_faces`: sort the frame's detections by
confidence descending (Python's stable sort), then greedily keep a
detection only when its IoU with every already-kept detection is ≤ 0.35.
(The source's well-formedness filter on 4-element bbox rows is the identity
in this typed model.) -/
def dedupeFaces (faces : List FaceRow) : List FaceRow :=
  if faces.isEmpty then []
  else (List.insertionSort faceConfGE faces).foldl dedupKeep []

/-- Source `VideoService._faces_are_similar`: the Euclidean distance between
the two bbox centers is compared with `threshold`; embedded sqrt-free via
the equivalent comparison of squares (both sides are nonnegative). -/
def facesAreSimilar (face1 face2 : FaceRec) (threshold : ℚ) : Bool :=
  let center1x := (face1.bbox.x1 + face1.bbox.x2) / 2
  let center1y := (face1.bbox.y1 + face1.bbox.y2) / 2
  let center2x := (face2.bbox.x1 + face2.bbox.x2) / 2
  let center2y := (face2.bbox.y1 + face2.bbox.y2) / 2
  decide ((center1x - center2x) ^ 2 + (center1y - center2y) ^ 2 < threshold ^ 2)

/-- One temporal face group of `_group_faces_over_time`. -/
structure FaceGroup where
  faceId : ℕ
  detections : List FaceRec
  firstSeen : ℚ
  lastSeen : ℚ
  detectionCount : ℕ
deriving DecidableEq

/-- A throwaway face record used only as a `getLastD`/`headD` default. -/
def noFace : FaceRec := { bbox := ⟨0, 0, 0, 0⟩, confidence := 0, timestamp := 0 }

/-- The greedy clustering loop of `_group_faces_over_time`: the first
not-yet-assigned detection seeds a group which absorbs, in order, every
later unassigned detection similar to the seed; `first_seen` is the seed's
timestamp, `last_seen` the timestamp of the last absorbed member (the
seed's when none), the count the member count.  Written with a fuel
argument (`fuel ≥ length` always holds at call sites) so the recursion is
structural. -/
def groupFacesGo (threshold : ℚ) : ℕ → List FaceRec → ℕ → List FaceGroup
  | 0, _, _ => []
  | _, [], _ => []
  | fuel + 1, seed :: rest, gid =>
    let absorbed := rest.filter (fun f => facesAreSimilar seed f threshold)
    let remaining := rest.filter (fun f => !(facesAreSimilar seed f threshold))
    { faceId := gid,
      detections := seed :: absorbed,
      firstSeen := seed.timestamp,
      lastSeen := (absorbed.getLastD seed).timestamp,
      detectionCount := (seed :: absorbed).length } :: groupFacesGo threshold fuel remaining (gid + 1)

/-- Source `VideoService._group_faces_over_time` with the source's default
similarity threshold 0.3. -/
def groupFacesOverTime (faces : List FaceRec) : List FaceGroup :=
  groupFacesGo (3/10) faces.length faces 0

/-- Text aggregation of `_post_process_results`: drop spans of fewer than 3
characters, deduplicate by case-insensitive text keeping the first
occurrence, keep at most 50. -/
def postProcessText (texts : List TextRec) : List TextRec :=
  if texts.isEmpty then texts
  else
    ((texts.foldl
        (fun st t =>
          let textLower := t.text.toLower
          if !(st.1.contains textLower) && decide (2 < t.text.length) then
            (st.1 ++ [textLower], st.2 ++ [t])
          else st)
        (([] : List String), ([] : List TextRec))).2).take 50

/-- A scene-change event of `_detect_scene_change`.  The histogram
correlation `corrNum / √corrDenSq` is kept in square-root-free form. -/
structure SceneEvent where
  timestamp : ℚ
  corrNum : ℚ
  corrDenSq : ℚ
  eventKind : String
deriving DecidableEq

/-- The 256-bin luminance histogram of `cv2.calcHist` over the (abstracted)
grayscale content. -/
def grayHistogram (gray : List ℕ) : List ℚ :=
  (List.range 256).map (fun i => ((gray.count i : ℕ) : ℚ))

/-- Source `VideoService._detect_scene_change`: compare the luminance
histograms of the two prepared frames by Pearson correlation
(`cv2.HISTCMP_CORREL`), emit an event iff the correlation is < 0.7.  The
comparison `s12 / √(s11·s22) < 0.7` is decided in exact rational arithmetic
by sign analysis and squaring; a zero denominator is treated as correlation
1 (no event), matching OpenCV's degenerate-histogram guard. -/
def detectSceneChange (prevFrame currFrame : Frame) (timestamp : ℚ) : Option SceneEvent :=
  let histPrev := grayHistogram prevFrame.gray
  let histCurr := grayHistogram currFrame.gray
  let bins : ℚ := 256
  let meanPrev := histPrev.sum / bins
  let meanCurr := histCurr.sum / bins
  let s12 := ((histPrev.zip histCurr).map (fun p => (p.1 - meanPrev) * (p.2 - meanCurr))).sum
  let s11 := (histPrev.map (fun a => (a - meanPrev) ^ 2)).sum
  let s22 := (histCurr.map (fun a => (a - meanCurr) ^ 2)).sum
  let corrBelow : Bool :=
    if s11 * s22 = 0 then false
    else if s12 < 0 then true
    else decide (s12 * s12 < (49/100 : ℚ) * (s11 * s22))
  if corrBelow then
    some { timestamp := timestamp, corrNum := s12, corrDenSq := s11 * s22,
           eventKind := "scene_change" }
  else none

/-- The static-prefilter diagnostics dict of `_is_static_video`
(`applied` / `mean_abs_diff` / `max_abs_diff`). -/
structure StaticProbe where
  applied : Bool
  meanAbsDiff : Option ℚ
  maxAbsDiff : Option ℚ
deriving DecidableEq

/-- `np.mean(cv2.absdiff(prev, curr))`: the mean absolute pixel difference
of two equally-shaped grayscale thumbnails (`|a − b|` on `uint8` equals
`max − min` on naturals). -/
def absMeanDiff (a b : List ℕ) : ℚ :=
  (((a.zip b).map (fun p => ((max p.1 p.2 - min p.1 p.2 : ℕ) : ℚ))).sum) / ((a.zip b).length : ℚ)

/-- The 64×64 grayscale thumbnail of a prepared frame; pixel-level
`INTER_AREA` content is abstracted by the frame's grayscale sequence (see
the module docstring). -/
def thumbGray64 (frame : Frame) : List ℕ := frame.gray

/-- The configuration values the pipeline consumes (after the constructor's
env-var clamping; the clamps themselves are plumbing and out of scope). -/
structure VideoConfig where
  maxFrames : ℕ
  maxFrameWidth : ℕ
  staticPrefilterEnabled : Bool
  staticPrefilterSampleFrames : ℕ
  staticDiffThreshold : ℚ
  frameCacheMaxEntries : ℕ

/-- The probe subset of `_is_static_video`: the plan linearly reduced to
the configured probe count. -/
def staticProbeIndices (cfg : VideoConfig) (frameIndices : List ℕ) : List ℕ :=
  limitFrameIndices (frameIndices.map (fun i => (i : ℤ))) cfg.staticPrefilterSampleFrames

/-- The grayscale thumbnails read for the probes of `_is_static_video`;
frames that fail to read are skipped. -/
def staticGrayFrames (cfg : VideoConfig) (frameAt : ℕ → Option Frame)
    (frameIndices : List ℕ) : List (List ℕ) :=
  (staticProbeIndices cfg frameIndices).filterMap
    (fun idx => (frameAt idx).map (fun frame => thumbGray64 (prepareFrame cfg.maxFrameWidth frame)))

/-- The consecutive mean-absolute-difference list of `_is_static_video`. -/
def staticDiffs (grays : List (List ℕ)) : List ℚ :=
  (grays.zip grays.tail).map (fun p => absMeanDiff p.1 p.2)

/-- `np.mean(diffs)`. -/
def staticMean (diffs : List ℚ) : ℚ := diffs.sum / (diffs.length : ℚ)

/-- `np.max(diffs)` over a non-empty list. -/
def staticMax (diffs : List ℚ) : ℚ :=
  match diffs with
  | [] => 0
  | d :: ds => ds.foldl max d

/-- Source `VideoService._is_static_video`: probe a linearly-reduced subset
of the plan, read and thumbnail those frames, and declare the video static
iff the mean of consecutive absolute differences is ≤ the threshold and the
maximum is ≤ 1.35 × the threshold. -/
def isStaticVideo (cfg : VideoConfig) (frameAt : ℕ → Option Frame)
    (frameIndices : List ℕ) : Bool × StaticProbe :=
  if (staticProbeIndices cfg frameIndices).length < 2 then
    (false, { applied := true, meanAbsDiff := none, maxAbsDiff := none })
  else if (staticGrayFrames cfg frameAt frameIndices).length < 2 then
    (false, { applied := true, meanAbsDiff := none, maxAbsDiff := none })
  else if (staticDiffs (staticGrayFrames cfg frameAt frameIndices)).isEmpty then
    (false, { applied := true, meanAbsDiff := none, maxAbsDiff := none })
  else
    (decide (staticMean (staticDiffs (staticGrayFrames cfg frameAt frameIndices)) ≤
        cfg.staticDiffThreshold) &&
     decide (staticMax (staticDiffs (staticGrayFrames cfg frameAt frameIndices)) ≤
        cfg.staticDiffThreshold * (135/100)),
     { applied := true,
       meanAbsDiff := some (pyRound3 (staticMean (staticDiffs (staticGrayFrames cfg frameAt frameIndices)))),
       maxAbsDiff := some (pyRound3 (staticMax (staticDiffs (staticGrayFrames cfg frameAt frameIndices)))) })

/-- The three typed views of the shared `self._frame_cache`; the single
string-keyed dict partitions exactly into these because every key is
prefixed by its feature name (see the module docstring). -/
structure Caches where
  labelsCache : Cache (List LabelRow)
  facesCache : Cache (List FaceRow)
  textCache : Cache (List TextRow)
deriving DecidableEq

/-- The `frame_results` dict of `_analyze_frame`: a key is present only if
its feature block completed. -/
structure FrameResults where
  labels : Option (List LabelRec)
  faces : Option (List FaceRec)
  text : Option (List TextRec)
deriving DecidableEq

/-- One feature block of `_analyze_frame`: when the feature is requested and
its service is loaded, run the cached inference (whose provider exception
propagates) and annotate the rows; otherwise leave the key absent. -/
def featureStep {α β : Type} (cap : ℕ) (cache : Cache (List α)) (active : Bool)
    (featureName : String) (sig : Frame)
    (inferFn : Unit → Except String (List α)) (annotate : List α → β) :
    Except String (Option β × Cache (List α)) :=
  if active then
    match cachedInference cap cache featureName sig inferFn with
    | .error e => .error e
    | .ok (rows, cache1, _) => .ok (some (annotate rows), cache1)
  else .ok (none, cache)

/-- Source `VideoService._analyze_frame`: the three feature blocks run
sequentially inside one `try`; an exception from any block is caught at
frame granularity — the keys already set and the cache mutations already
performed survive, the failing and the remaining blocks contribute
nothing — and the loop in `analyze_video` continues. -/
def analyzeFrame (cap : ℕ) (caches : Caches) (features : List String)
    (visionLoaded faceLoaded ocrLoaded : Bool)
    (detectObjects : Frame → Except String (List LabelRow))
    (detectFacesFn : Frame → Except String (List FaceRow))
    (extractTextFn : Frame → Except String (List TextRow))
    (frame : Frame) (timestamp : ℚ) : FrameResults × Caches :=
  match featureStep cap caches.labelsCache (features.contains "labels" && visionLoaded)
      "labels" (frameSignature frame) (fun _ => detectObjects frame)
      (fun rows => annotateLabels rows timestamp) with
  | .error _ => ({ labels := none, faces := none, text := none }, caches)
  | .ok (labelsRes, labelsCache1) =>
    match featureStep cap caches.facesCache (features.contains "faces" && faceLoaded)
        "faces" (frameSignature frame) (fun _ => detectFacesFn frame)
        (fun rows => annotateFaces rows timestamp) with
    | .error _ => ({ labels := labelsRes, faces := none, text := none },
                   { caches with labelsCache := labelsCache1 })
    | .ok (facesRes, facesCache1) =>
      match featureStep cap caches.textCache (features.contains "text" && ocrLoaded)
          "text" (frameSignature frame) (fun _ => extractTextFn frame)
          (fun rows => annotateTexts rows timestamp) with
      | .error _ => ({ labels := labelsRes, faces := facesRes, text := none },
                     { caches with labelsCache := labelsCache1, facesCache := facesCache1 })
      | .ok (textRes, textCache1) =>
        ({ labels := labelsRes, faces := facesRes, text := textRes },
         { labelsCache := labelsCache1, facesCache := facesCache1, textCache := textCache1 })

/-- The stream-level data the pipeline reads through OpenCV: the raw
`CAP_PROP_FPS` value, the frame count, and seek-and-read by index
(`None` = "frame unavailable", skipped without retry). -/
structure StreamData where
  fps0 : ℚ
  totalFrames : ℤ
  frameAt : ℕ → Option Frame

/-- The mutable state threaded through the sampling loop of
`analyze_video`. -/
structure LoopState where
  labelsAcc : List LabelRec
  facesAcc : List FaceRec
  textAcc : List TextRec
  scenesAcc : List SceneEvent
  analyzed : ℕ
  lastFrame : Option Frame
  caches : Caches

/-- One iteration of the sampling loop of `analyze_video`: skip unreadable
frames, prepare, analyze, extend the requested accumulators, run scene
detection against the previous prepared frame. -/
def loopStep (cfg : VideoConfig) (stream : StreamData) (features : List String)
    (visionLoaded faceLoaded ocrLoaded : Bool)
    (detectObjects : Frame → Except String (List LabelRow))
    (detectFacesFn : Frame → Except String (List FaceRow))
    (extractTextFn : Frame → Except String (List TextRow))
    (fps : ℚ) (st : LoopState) (frameIndex : ℕ) : LoopState :=
  match stream.frameAt frameIndex with
  | none => st
  | some frame =>
    let prepared := prepareFrame cfg.maxFrameWidth frame
    let timestamp := if 0 < fps then (frameIndex : ℚ) / fps else 0
    let analyzed := analyzeFrame cfg.frameCacheMaxEntries st.caches features
      visionLoaded faceLoaded ocrLoaded detectObjects detectFacesFn extractTextFn
      prepared timestamp
    let frameResults := analyzed.1
    { labelsAcc :=
        if features.contains "labels" then st.labelsAcc ++ (frameResults.labels.getD [])
        else st.labelsAcc,
      facesAcc :=
        if features.contains "faces" then st.facesAcc ++ (frameResults.faces.getD [])
        else st.facesAcc,
      textAcc :=
        if features.contains "text" then st.textAcc ++ (frameResults.text.getD [])
        else st.textAcc,
      scenesAcc :=
        if features.contains "scenes" then
          match st.lastFrame with
          | some prev =>
            match detectSceneChange prev prepared timestamp with
            | some event => st.scenesAcc ++ [event]
            | none => st.scenesAcc
          | none => st.scenesAcc
        else st.scenesAcc,
      analyzed := st.analyzed + 1,
      lastFrame := some prepared,
      caches := analyzed.2 }

/-- The `static_prefilter` block of the result metadata. -/
structure StaticPreState where
  enabled : Bool
  applied : Bool
  detectedStatic : Bool
  meanAbsDiff : Option ℚ
  maxAbsDiff : Option ℚ
deriving DecidableEq

/-- The `metadata` block of the analysis result. -/
structure VideoMetadata where
  duration : ℚ
  fps : ℚ
  totalFrames : ℤ
  framesAnalyzed : ℕ
  sampleRate : ℕ
  maxFrames : ℕ
  sampledFrameIndices : List ℕ
  staticState : StaticPreState
deriving DecidableEq

/-- The caller-facing result dict of `analyze_video` after
`_post_process_results`. -/
structure AnalysisResult where
  metadata : VideoMetadata
  labels : List LabelGroup
  faces : List FaceGroup
  scenes : List SceneEvent
  text : List TextRec
  shotChanges : List SceneEvent

/-- The key set of the result dict, as the excluded HTTP layer sees it. -/
def resultKeys (_ : AnalysisResult) : List String :=
  ["metadata", "labels", "faces", "scenes", "text", "shot_changes"]

/-- The fps normalization of `analyze_video`
(`fps = float(fps) if fps and fps > 0 else 1.0`). -/
def normalizedFps (fps0 : ℚ) : ℚ := if 0 < fps0 then fps0 else 1

/-- `normalized_sample_rate = max(1, int(sample_rate or 1))`. -/
def normalizedRate (sampleRate : ℤ) : ℕ :=
  (max 1 (if sampleRate = 0 then 1 else sampleRate)).toNat

/-- The sampling plan `analyze_video` computes before the static prefilter. -/
def planOf (cfg : VideoConfig) (stream : StreamData) (sampleRate : ℤ) : List ℕ :=
  samplingFrameIndices cfg.maxFrames stream.totalFrames (normalizedFps stream.fps0)
    (normalizedRate sampleRate)

/-- The static-prefilter decision of `analyze_video`: only taken when the
prefilter is enabled and the plan has more than one index. -/
def staticOutcome (cfg : VideoConfig) (stream : StreamData) (plan : List ℕ) :
    Option (Bool × StaticProbe) :=
  if cfg.staticPrefilterEnabled ∧ 1 < plan.length then
    some (isStaticVideo cfg stream.frameAt plan)
  else none

/-- The plan actually analyzed: collapsed to its first index exactly when
the prefilter ran and declared the video static. -/
def effectivePlan (outcome : Option (Bool × StaticProbe)) (plan : List ℕ) : List ℕ :=
  match outcome with
  | some (true, _) => plan.take 1
  | _ => plan

/-- The `static_prefilter` metadata block assembled in `analyze_video`. -/
def staticStateOf (enabled : Bool) (outcome : Option (Bool × StaticProbe)) : StaticPreState :=
  { enabled := enabled,
    applied := match outcome with | some (_, d) => d.applied | none => false,
    detectedStatic := match outcome with | some (det, _) => det | none => false,
    meanAbsDiff := match outcome with | some (_, d) => d.meanAbsDiff | none => none,
    maxAbsDiff := match outcome with | some (_, d) => d.maxAbsDiff | none => none }

/-- The accumulators of `analyze_video` before the sampling loop. -/
def initialLoopState (caches : Caches) : LoopState :=
  { labelsAcc := [], facesAcc := [], textAcc := [], scenesAcc := [],
    analyzed := 0, lastFrame := none, caches := caches }

/-- The sampling loop of `analyze_video`, run over the effective plan. -/
def finalLoopState (cfg : VideoConfig) (stream : StreamData) (features : List String)
    (sampleRate : ℤ) (visionLoaded faceLoaded ocrLoaded : Bool)
    (detectObjects : Frame → Except String (List LabelRow))
    (detectFacesFn : Frame → Except String (List FaceRow))
    (extractTextFn : Frame → Except String (List TextRow))
    (caches : Caches) : LoopState :=
  (effectivePlan (staticOutcome cfg stream (planOf cfg stream sampleRate))
      (planOf cfg stream sampleRate)).foldl
    (loopStep cfg stream features visionLoaded faceLoaded ocrLoaded
      detectObjects detectFacesFn extractTextFn (normalizedFps stream.fps0))
    (initialLoopState caches)

/-- The successful path of `analyze_video` (the stream opened): normalize,
plan, prefilter, loop, post-process, and assemble the result dict plus the
service's mutated cache state. -/
def analyzeVideoOpened (cfg : VideoConfig) (stream : StreamData)
    (features : List String) (sampleRate : ℤ)
    (visionLoaded faceLoaded ocrLoaded : Bool)
    (detectObjects : Frame → Except String (List LabelRow))
    (detectFacesFn : Frame → Except String (List FaceRow))
    (extractTextFn : Frame → Except String (List TextRow))
    (caches : Caches) : AnalysisResult × Caches :=
  ({ metadata :=
      { duration :=
          if 0 < normalizedFps stream.fps0 then
            (stream.totalFrames : ℚ) / normalizedFps stream.fps0
          else 0,
        fps := normalizedFps stream.fps0,
        totalFrames := stream.totalFrames,
        framesAnalyzed := (finalLoopState cfg stream features sampleRate visionLoaded
          faceLoaded ocrLoaded detectObjects detectFacesFn extractTextFn caches).analyzed,
        sampleRate := normalizedRate sampleRate,
        maxFrames := cfg.maxFrames,
        sampledFrameIndices := effectivePlan
          (staticOutcome cfg stream (planOf cfg stream sampleRate))
          (planOf cfg stream sampleRate),
        staticState := staticStateOf cfg.staticPrefilterEnabled
          (staticOutcome cfg stream (planOf cfg stream sampleRate)) },
     labels := postProcessLabels (finalLoopState cfg stream features sampleRate visionLoaded
       faceLoaded ocrLoaded detectObjects detectFacesFn extractTextFn caches).labelsAcc,
     faces :=
       if (finalLoopState cfg stream features sampleRate visionLoaded faceLoaded ocrLoaded
           detectObjects detectFacesFn extractTextFn caches).facesAcc.isEmpty then []
       else groupFacesOverTime (finalLoopState cfg stream features sampleRate visionLoaded
         faceLoaded ocrLoaded detectObjects detectFacesFn extractTextFn caches).facesAcc,
     scenes := (finalLoopState cfg stream features sampleRate visionLoaded faceLoaded ocrLoaded
       detectObjects detectFacesFn extractTextFn caches).scenesAcc,
     text := postProcessText (finalLoopState cfg stream features sampleRate visionLoaded
       faceLoaded ocrLoaded detectObjects detectFacesFn extractTextFn caches).textAcc,
     shotChanges := [] },
   (finalLoopState cfg stream features sampleRate visionLoaded faceLoaded ocrLoaded
     detectObjects detectFacesFn extractTextFn caches).caches)

/-- Source `VideoService.analyze_video`: raise when the stream cannot be
opened, otherwise run the opened path.  The trailing `Bool` models the
`finally: cap.release()` — the handle is released on every path before the
call returns or raises. -/
def analyzeVideo (cfg : VideoConfig) (isOpened : Bool) (stream : StreamData)
    (features : List String) (sampleRate : ℤ)
    (visionLoaded faceLoaded ocrLoaded : Bool)
    (detectObjects : Frame → Except String (List LabelRow))
    (detectFacesFn : Frame → Except String (List FaceRow))
    (extractTextFn : Frame → Except String (List TextRow))
    (caches : Caches) : (Except String AnalysisResult × Caches) × Bool :=
  if !isOpened then ((.error "Cannot open video", caches), true)
  else
    ((.ok (analyzeVideoOpened cfg stream features sampleRate visionLoaded faceLoaded ocrLoaded
        detectObjects detectFacesFn extractTextFn caches).1,
      (analyzeVideoOpened cfg stream features sampleRate visionLoaded faceLoaded ocrLoaded
        detectObjects detectFacesFn extractTextFn caches).2),
     true)

/-- Every binding of `key` in the table carries the value `v` (entries are
immutable once written, so this is stable under operations on other keys). -/
def KeyVal {α : Type} (cache : Cache α) (key : CacheKey) (v : α) : Prop :=
  ∀ p ∈ cache, p.1 = key → p.2 = v

/-- Spec-side characterization of one aggregated label group: occurrence
count, running maximum confidence (the source folds from 0) and observed
timestamps of the records bearing the given label name. -/
def groupFor (records : List LabelRec) (name : String) : LabelGroup :=
  { label := name,
    count := (records.filter (fun r => r.label == name)).length,
    maxConfidence :=
      ((records.filter (fun r => r.label == name)).map (fun r => r.confidence)).foldl max 0,
    timestamps := (records.filter (fun r => r.label == name)).map (fun r => r.timestamp) }

/-! ### Helper lemmas: rounding -/

theorem pyRound_cases (x : ℚ) : pyRound x = ⌊x⌋ ∨ pyRound x = ⌊x⌋ + 1 := by
  unfold pyRound
  split_ifs <;> simp

theorem pyRound_nonneg {x : ℚ} (hx : 0 ≤ x) : 0 ≤ pyRound x := by
  have h0 : (0 : ℤ) ≤ ⌊x⌋ := Int.floor_nonneg.mpr hx
  rcases pyRound_cases x with h | h <;> omega

theorem pyRound_le_of_le_int {x : ℚ} {B : ℤ} (hB : x ≤ B) : pyRound x ≤ B := by
  have hfl : ⌊x⌋ ≤ B := by
    calc ⌊x⌋ ≤ ⌊(B : ℚ)⌋ := Int.floor_le_floor hB
    _ = B := Int.floor_intCast B
  rcases pyRound_cases x with h | h
  · omega
  · by_cases hlt : x - ⌊x⌋ < 1/2
    · unfold pyRound at h
      rw [if_pos hlt] at h
      omega
    · push_neg at hlt
      have hxgt : (⌊x⌋ : ℚ) + 1/2 ≤ x := by linarith
      have hltB : ⌊x⌋ < B := by
        by_contra hc
        push_neg at hc
        have hBeq : ⌊x⌋ = B := le_antisymm hfl hc
        rw [hBeq] at hxgt
        linarith
      omega

/-! ### Helper lemmas: sorted sets and ranges -/

theorem mem_pySortedSet {a : ℕ} {l : List ℕ} : a ∈ pySortedSet l ↔ a ∈ l := by
  unfold pySortedSet
  rw [List.mem_dedup]
  exact (List.perm_insertionSort _ l).mem_iff

theorem pySortedSet_sorted (l : List ℕ) : (pySortedSet l).Sorted (· < ·) := by
  have hle : (pySortedSet l).Sorted (· ≤ ·) :=
    List.Pairwise.sublist (List.dedup_sublist _) (List.sorted_insertionSort _ l)
  have hnd : (pySortedSet l).Nodup := List.nodup_dedup _
  exact List.Pairwise.imp₂ (fun a b h1 h2 => lt_of_le_of_ne h1 h2) hle hnd

theorem pySortedSet_length_le (l : List ℕ) : (pySortedSet l).length ≤ l.length := by
  have h1 : (pySortedSet l).length ≤ (l.insertionSort (· ≤ ·)).length :=
    (List.dedup_sublist _).length_le
  have h2 : (l.insertionSort (· ≤ ·)).length = l.length :=
    (List.perm_insertionSort _ l).length_eq
  omega

theorem pySortedSet_eq_nil {l : List ℕ} : pySortedSet l = [] ↔ l = [] := by
  unfold pySortedSet
  rw [List.dedup_eq_nil]
  constructor
  · intro h
    have := (List.perm_insertionSort (· ≤ ·) l).length_eq
    rw [h] at this
    exact List.length_eq_zero.mp this.symm
  · intro h
    rw [h]
    rfl

theorem rangeStep_mem_lt {stop step n : ℕ} (hstep : 1 ≤ step)
    (hn : n ∈ rangeStep stop step) : n < stop := by
  unfold rangeStep at hn
  rcases List.mem_map.mp hn with ⟨k, hk, rfl⟩
  rw [List.mem_range] at hk
  have hk1 : k + 1 ≤ (stop + step - 1) / step := hk
  have := (Nat.le_div_iff_mul_le hstep).mp hk1
  have hexp : (k + 1) * step = k * step + step := by ring
  omega

theorem rangeStep_ne_nil {stop step : ℕ} (hstop : 1 ≤ stop) (hstep : 1 ≤ step) :
    rangeStep stop step ≠ [] := by
  unfold rangeStep
  have hcount : 1 ≤ (stop + step - 1) / step := by
    rw [Nat.le_div_iff_mul_le hstep]
    omega
  intro h
  have := congrArg List.length h
  simp at this
  omega

/-! ### Helper lemmas: the frame-index limiter -/

theorem headD_mem {α : Type} {l : List α} (h : l ≠ []) (d : α) : l.headD d ∈ l := by
  cases l with
  | nil => exact absurd rfl h
  | cons a t => simp

theorem limitFrameIndices_mem {indices : List ℤ} {m : ℕ} (hm : 1 ≤ m) :
    ∀ j ∈ limitFrameIndices indices m, ∃ i ∈ indices, j = (max 0 i).toNat := by
  intro j hj
  have hclean : j ∈ pySortedSet (indices.map (fun idx => (max 0 idx).toNat)) := by
    unfold limitFrameIndices at hj
    set clean := pySortedSet (indices.map (fun idx => (max 0 idx).toNat)) with hcleandef
    by_cases h1 : clean.length ≤ m
    · rwa [if_pos h1] at hj
    · rw [if_neg h1] at hj
      by_cases h2 : m ≤ 1
      · rw [if_pos h2] at hj
        have hne : clean ≠ [] := by
          intro hc
          rw [hc] at h1
          simp at h1
        rcases List.mem_singleton.mp hj with rfl
        exact headD_mem hne 0
      · rw [if_neg h2] at hj
        -- the reduced list only indexes into `clean` at in-range positions
        have hred := mem_pySortedSet.mp hj
        rcases List.mem_map.mp hred with ⟨pos, hpos, rfl⟩
        rcases List.mem_map.mp hpos with ⟨k, hk, rfl⟩
        rw [List.mem_range] at hk
        have hm2 : 2 ≤ m := by omega
        have hn : m < clean.length := by omega
        have hn1 : 1 ≤ clean.length := by omega
        set n := clean.length with hndef
        have hposnn : 0 ≤ ((k : ℚ) * ((n : ℚ) - 1)) / ((m : ℚ) - 1) := by
          apply div_nonneg
          · apply mul_nonneg (by positivity)
            have : (1 : ℚ) ≤ (n : ℚ) := by exact_mod_cast hn1
            linarith
          · have : (2 : ℚ) ≤ (m : ℚ) := by exact_mod_cast hm2
            linarith
        have hposle : ((k : ℚ) * ((n : ℚ) - 1)) / ((m : ℚ) - 1) ≤ ((n : ℤ) - 1 : ℤ) := by
          have hmpos : (0 : ℚ) < (m : ℚ) - 1 := by
            have : (2 : ℚ) ≤ (m : ℚ) := by exact_mod_cast hm2
            linarith
          rw [div_le_iff hmpos]
          have hkle : (k : ℚ) ≤ (m : ℚ) - 1 := by
            have : (k : ℚ) + 1 ≤ (m : ℚ) := by exact_mod_cast hk
            linarith
          have hnn : (0 : ℚ) ≤ (n : ℚ) - 1 := by
            have : (1 : ℚ) ≤ (n : ℚ) := by exact_mod_cast hn1
            linarith
          have := mul_le_mul_of_nonneg_right hkle hnn
          push_cast
          linarith [this]
        have hub : pyRound (((k : ℚ) * ((n : ℚ) - 1)) / ((m : ℚ) - 1)) ≤ (n : ℤ) - 1 :=
          pyRound_le_of_le_int hposle
        have hlb : 0 ≤ pyRound (((k : ℚ) * ((n : ℚ) - 1)) / ((m : ℚ) - 1)) :=
          pyRound_nonneg hposnn
        have hidx : (pyRound (((k : ℚ) * ((n : ℚ) - 1)) / ((m : ℚ) - 1))).toNat < n := by
          omega
        rw [List.getD_eq_getElem clean 0 hidx]
        exact List.getElem_mem _
  rcases List.mem_map.mp (mem_pySortedSet.mp hclean) with ⟨i, hi, hij⟩
  exact ⟨i, hi, hij.symm⟩

theorem limitFrameIndices_def (indices : List ℤ) (m : ℕ) :
    limitFrameIndices indices m =
      (if (pySortedSet (indices.map (fun idx => (max 0 idx).toNat))).length ≤ m then
        pySortedSet (indices.map (fun idx => (max 0 idx).toNat))
      else if m ≤ 1 then [(pySortedSet (indices.map (fun idx => (max 0 idx).toNat))).headD 0]
      else
        pySortedSet
          (((List.range m).map
              (fun (k : ℕ) =>
                ((k : ℚ) *
                    (((pySortedSet (indices.map (fun idx => (max 0 idx).toNat))).length : ℚ) - 1)) /
                  ((m : ℚ) - 1))).map
            (fun pos =>
              (pySortedSet (indices.map (fun idx => (max 0 idx).toNat))).getD
                (pyRound pos).toNat 0))) := rfl

theorem limitFrameIndices_sorted (indices : List ℤ) (m : ℕ) :
    (limitFrameIndices indices m).Sorted (· < ·) := by
  rw [limitFrameIndices_def]
  split_ifs with h1 h2
  · exact pySortedSet_sorted _
  · exact List.sorted_singleton _
  · exact pySortedSet_sorted _

theorem limitFrameIndices_length {indices : List ℤ} {m : ℕ} (hm : 1 ≤ m) :
    (limitFrameIndices indices m).length ≤ m := by
  rw [limitFrameIndices_def]
  split_ifs with h1 h2
  · exact h1
  · simpa using hm
  · calc (pySortedSet _).length ≤ _ := pySortedSet_length_le _
    _ = m := by simp

theorem limitFrameIndices_ne_nil {indices : List ℤ} {m : ℕ} (hm : 1 ≤ m)
    (hne : indices ≠ []) : limitFrameIndices indices m ≠ [] := by
  rw [limitFrameIndices_def]
  split_ifs with h1 h2
  · intro hc
    exact hne (List.map_eq_nil.mp (pySortedSet_eq_nil.mp hc))
  · simp
  · intro hc
    have hred := pySortedSet_eq_nil.mp hc
    have := congrArg List.length hred
    simp at this
    omega

/-! ### Helper lemmas: the raw sampling index list -/

theorem samplingRawIndices_def (totalFrames : ℤ) (fps : ℚ) (sampleRate : ℕ) :
    samplingRawIndices totalFrames fps sampleRate =
      (if ((if (samplingBase totalFrames fps sampleRate).isEmpty then ([0] : List ℤ)
            else samplingBase totalFrames fps sampleRate)).length = 1 ∧ 1 < totalFrames
       then (if (samplingBase totalFrames fps sampleRate).isEmpty then ([0] : List ℤ)
             else samplingBase totalFrames fps sampleRate) ++ [totalFrames - 1]
       else (if (samplingBase totalFrames fps sampleRate).isEmpty then ([0] : List ℤ)
             else samplingBase totalFrames fps sampleRate)) := rfl

theorem samplingRawIndices_ne_nil (totalFrames : ℤ) (fps : ℚ) (sampleRate : ℕ) :
    samplingRawIndices totalFrames fps sampleRate ≠ [] := by
  rw [samplingRawIndices_def]
  split_ifs with h1 h2 <;> simp_all

theorem samplingBase_mem_lt {totalFrames : ℤ} {fps : ℚ} {sampleRate : ℕ}
    (hT : 0 < totalFrames) :
    ∀ i ∈ samplingBase totalFrames fps sampleRate, i < totalFrames := by
  intro i hi
  unfold samplingBase at hi
  rcases List.mem_map.mp hi with ⟨n, hn, rfl⟩
  have hstep : 1 ≤ ((max (pyRound (fps * (sampleRate : ℚ))) 1).toNat) := by
    have : (1 : ℤ) ≤ max (pyRound (fps * (sampleRate : ℚ))) 1 := le_max_right _ _
    omega
  have := rangeStep_mem_lt hstep hn
  have hcast : ((totalFrames.toNat : ℤ)) = totalFrames := Int.toNat_of_nonneg hT.le
  have hofn : Int.ofNat n = (n : ℤ) := rfl
  omega

theorem samplingRawIndices_mem_lt {totalFrames : ℤ} {fps : ℚ} {sampleRate : ℕ}
    (hT : 0 < totalFrames) :
    ∀ i ∈ samplingRawIndices totalFrames fps sampleRate, i < totalFrames := by
  intro i hi
  rw [samplingRawIndices_def] at hi
  split_ifs at hi with h1 h2 h3
  · rcases List.mem_append.mp hi with hbase | hlast
    · rcases List.mem_singleton.mp hbase with rfl
      exact hT
    · rcases List.mem_singleton.mp hlast with rfl
      omega
  · rcases List.mem_singleton.mp hi with rfl
    exact hT
  · rcases List.mem_append.mp hi with hbase | hlast
    · exact samplingBase_mem_lt hT _ hbase
    · rcases List.mem_singleton.mp hlast with rfl
      omega
  · exact samplingBase_mem_lt hT _ hi

/-- C2: for every metadata with `totalFrames > 0` and `fps > 0`, every
`sampleRate ≥ 1` and configured `maxFrames ≥ 1`, the frame sampler returns
a non-empty strictly increasing list of at most `maxFrames` indices, each
`< totalFrames` (indices are naturals, hence ≥ 0); and for `totalFrames ≤ 0`
the plan is exactly `[0]`. -/
theorem c2_frame_sampler_plan (maxFrames : ℕ) (totalFrames : ℤ) (fps : ℚ)
    (sampleRate : ℕ) (hm : 1 ≤ maxFrames) :
    (0 < totalFrames → 0 < fps → 1 ≤ sampleRate →
      samplingFrameIndices maxFrames totalFrames fps sampleRate ≠ [] ∧
      (samplingFrameIndices maxFrames totalFrames fps sampleRate).Sorted (· < ·) ∧
      (samplingFrameIndices maxFrames totalFrames fps sampleRate).length ≤ maxFrames ∧
      (∀ j ∈ samplingFrameIndices maxFrames totalFrames fps sampleRate,
        (j : ℤ) < totalFrames)) ∧
    (totalFrames ≤ 0 →
      samplingFrameIndices maxFrames totalFrames fps sampleRate = [0]) := by
  constructor
  · intro hT _hfps _hrate
    have hneg : ¬ totalFrames ≤ 0 := by omega
    have hplan : samplingFrameIndices maxFrames totalFrames fps sampleRate =
        limitFrameIndices (samplingRawIndices totalFrames fps sampleRate) maxFrames := by
      unfold samplingFrameIndices
      rw [if_neg hneg]
    rw [hplan]
    refine ⟨limitFrameIndices_ne_nil hm (samplingRawIndices_ne_nil _ _ _),
      limitFrameIndices_sorted _ _, limitFrameIndices_length hm, ?_⟩
    intro j hj
    rcases limitFrameIndices_mem hm j hj with ⟨i, hi, rfl⟩
    have hilt := samplingRawIndices_mem_lt hT i hi
    have hmax : max 0 i < totalFrames := max_lt hT hilt
    have : ((max 0 i).toNat : ℤ) = max 0 i := Int.toNat_of_nonneg (le_max_left _ _)
    omega
  · intro hT
    unfold samplingFrameIndices
    rw [if_pos hT]

/-- C2 witness: the spec's end-to-end scenario (10 s at 30 fps,
`sampleRate = 2`, `maxFrames = 12`) and the degenerate stream. -/
theorem c2_frame_sampler_plan_witness :
    (samplingFrameIndices 12 300 30 2 ≠ [] ∧
     (samplingFrameIndices 12 300 30 2).Sorted (· < ·) ∧
     (samplingFrameIndices 12 300 30 2).length ≤ 12 ∧
     (∀ j ∈ samplingFrameIndices 12 300 30 2, (j : ℤ) < 300)) ∧
    samplingFrameIndices 12 0 30 2 = [0] :=
  ⟨(c2_frame_sampler_plan 12 300 30 2 (by norm_num)).1 (by norm_num) (by norm_num)
      (by norm_num),
   (c2_frame_sampler_plan 12 0 30 2 (by norm_num)).2 (by norm_num)⟩

/-! ### C10: frame preparation -/

/-- C10: frame preparation is idempotent — `prepare (prepare f) = prepare f`
— because a frame whose width is within the bound (in particular any frame
the resize branch produced) passes through as the identity. -/
theorem c10_prepare_frame_idempotent (maxFrameWidth : ℕ) (frame : Frame) :
    prepareFrame maxFrameWidth (prepareFrame maxFrameWidth frame) =
      prepareFrame maxFrameWidth frame ∧
    (frame.width ≤ maxFrameWidth → prepareFrame maxFrameWidth frame = frame) ∧
    ((prepareFrame maxFrameWidth frame).width ≤ maxFrameWidth ∨
      prepareFrame maxFrameWidth frame = frame) := by
  by_cases h0 : frame.width * frame.height = 0
  · have hf : prepareFrame maxFrameWidth frame = frame := by
      unfold prepareFrame
      rw [if_pos h0]
    rw [hf]
    exact ⟨hf, fun _ => rfl, Or.inr rfl⟩
  · by_cases h1 : frame.width ≤ maxFrameWidth
    · have hf : prepareFrame maxFrameWidth frame = frame := by
        unfold prepareFrame
        rw [if_neg h0, if_pos h1]
      rw [hf]
      exact ⟨hf, fun _ => rfl, Or.inl (hf ▸ h1)⟩
    · have hf : prepareFrame maxFrameWidth frame =
          { width := maxFrameWidth,
            height := max 1 (pyRound ((frame.height : ℚ) *
              ((maxFrameWidth : ℚ) / (frame.width : ℚ)))).toNat,
            gray := frame.gray } := by
        unfold prepareFrame
        rw [if_neg h0, if_neg h1]
      refine ⟨?_, fun hc => absurd hc h1, ?_⟩
      · rw [hf]
        by_cases hw : maxFrameWidth = 0
        · unfold prepareFrame
          rw [if_pos]
          simp [hw]
        · unfold prepareFrame
          rw [if_neg, if_pos (le_refl _)]
          simp only [ne_eq]
          intro hc
          rcases Nat.mul_eq_zero.mp hc with hc | hc
          · exact hw hc
          · omega
      · left
        rw [hf]

/-- C10 witness: a 1920×1080 frame resized under a 960-pixel bound, and an
in-bound frame passed through unchanged. -/
theorem c10_prepare_frame_idempotent_witness :
    prepareFrame 960 (prepareFrame 960 ⟨1920, 1080, []⟩) =
      prepareFrame 960 ⟨1920, 1080, []⟩ ∧
    prepareFrame 960 ⟨640, 480, []⟩ = ⟨640, 480, []⟩ :=
  ⟨(c10_prepare_frame_idempotent 960 ⟨1920, 1080, []⟩).1,
   (c10_prepare_frame_idempotent 960 ⟨640, 480, []⟩).2.1 (by norm_num)⟩

/-! ### Helper lemmas: the LRU cache -/

theorem length_eraseP_of_find? {α : Type} {p : α → Bool} {e : α} :
    ∀ {l : List α}, l.find? p = some e → (l.eraseP p).length + 1 = l.length := by
  intro l
  induction l with
  | nil => intro h; cases h
  | cons a t ih =>
    intro h
    by_cases ha : p a
    · rw [List.eraseP_cons_of_pos ha]
      simp
    · rw [List.eraseP_cons_of_neg (by simpa using ha)]
      rw [List.find?_cons_of_neg _ (by simpa using ha)] at h
      have := ih h
      simp only [List.length_cons]
      omega

theorem mem_moveToEnd_subset {α : Type} {cache : Cache α} {key : CacheKey} :
    ∀ p ∈ moveToEnd cache key, p ∈ cache := by
  intro p hp
  unfold moveToEnd at hp
  cases hf : cache.find? (fun q => decide (q.1 = key)) with
  | none => rwa [hf] at hp
  | some entry =>
    rw [hf] at hp
    rcases List.mem_append.mp hp with h | h
    · exact List.mem_of_mem_eraseP h
    · rcases List.mem_singleton.mp h with rfl
      exact List.mem_of_find?_eq_some hf

theorem mem_evictOldest_subset {α : Type} (cap : ℕ) :
    ∀ (cache : Cache α), ∀ p ∈ evictOldest cap cache, p ∈ cache
  | [] => by intro p hp; simpa [evictOldest] using hp
  | e :: rest => by
    intro p hp
    unfold evictOldest at hp
    split_ifs at hp with h
    · exact hp
    · exact List.mem_cons_of_mem e (mem_evictOldest_subset cap rest p hp)

theorem evictOldest_length {α : Type} (cap : ℕ) :
    ∀ cache : Cache α, (evictOldest cap cache).length ≤ cap
  | [] => by simp [evictOldest]
  | e :: rest => by
    unfold evictOldest
    split_ifs with h
    · exact h
    · exact evictOldest_length cap rest

theorem evictOldest_drop {α : Type} (cap : ℕ) :
    ∀ cache : Cache α, evictOldest cap cache = cache.drop (cache.length - cap)
  | [] => by simp [evictOldest]
  | e :: rest => by
    unfold evictOldest
    split_ifs with h
    · have : (e :: rest).length - cap = 0 := by omega
      rw [this, List.drop_zero]
    · have hlen : (e :: rest).length - cap = (rest.length - cap) + 1 := by
        simp only [List.length_cons] at *
        omega
      rw [hlen, List.drop_succ_cons]
      exact evictOldest_drop cap rest

theorem keyVal_of_subset {α : Type} {c c' : Cache α} {key : CacheKey} {v : α}
    (hsub : ∀ p ∈ c', p ∈ c) (h : KeyVal c key v) : KeyVal c' key v :=
  fun p hp hpk => h p (hsub p hp) hpk

theorem cacheAssign_keyVal_self {α : Type} (c : Cache α) (key : CacheKey) (v : α) :
    KeyVal (cacheAssign c key v) key v := by
  intro p hp hpk
  unfold cacheAssign at hp
  split_ifs at hp with h
  · rcases List.mem_map.mp hp with ⟨q, _hq, rfl⟩
    by_cases hqk : q.1 = key
    · simp [hqk]
    · simp only [if_neg hqk] at hpk ⊢
      exact absurd hpk hqk
  · rcases List.mem_append.mp hp with hin | hin
    · have hnone : c.find? (fun q => decide (q.1 = key)) = none := by
        cases hfind : c.find? (fun q => decide (q.1 = key)) with
        | none => rfl
        | some q => rw [hfind] at h; simp at h
      have := List.find?_eq_none.mp hnone p hin
      simp only [decide_eq_true_eq] at this
      exact absurd hpk this
    · rcases List.mem_singleton.mp hin with rfl
      rfl

theorem cacheAssign_keyVal_other {α : Type} {c : Cache α} {key key' : CacheKey} {v v' : α}
    (hkk : key' ≠ key) (h : KeyVal c key v) : KeyVal (cacheAssign c key' v') key v := by
  intro p hp hpk
  unfold cacheAssign at hp
  split_ifs at hp with hs
  · rcases List.mem_map.mp hp with ⟨q, hq, rfl⟩
    by_cases hqk : q.1 = key'
    · simp only [if_pos hqk] at hpk
      exact absurd hpk hkk
    · simp only [if_neg hqk] at hpk ⊢
      exact h q hq hpk
  · rcases List.mem_append.mp hp with hin | hin
    · exact h p hin hpk
    · rcases List.mem_singleton.mp hin with rfl
      exact absurd hpk hkk

theorem cacheSet_keyVal_self {α : Type} {cap : ℕ} (hcap : cap ≠ 0)
    (c : Cache α) (key : CacheKey) (v : α) : KeyVal (cacheSet cap c key v) key v := by
  unfold cacheSet
  rw [if_neg hcap]
  exact keyVal_of_subset (mem_evictOldest_subset cap _)
    (keyVal_of_subset mem_moveToEnd_subset (cacheAssign_keyVal_self c key v))

theorem cacheSet_keyVal_other {α : Type} {cap : ℕ} {c : Cache α} {key key' : CacheKey}
    {v v' : α} (hkk : key' ≠ key) (h : KeyVal c key v) :
    KeyVal (cacheSet cap c key' v') key v := by
  unfold cacheSet
  split_ifs with hcap
  · exact h
  · exact keyVal_of_subset (mem_evictOldest_subset cap _)
      (keyVal_of_subset mem_moveToEnd_subset (cacheAssign_keyVal_other hkk h))

theorem cacheGet_keyVal {α : Type} {cap : ℕ} {c : Cache α} {key key' : CacheKey} {v : α}
    (h : KeyVal c key v) : KeyVal ((cacheGet cap c key').2) key v := by
  unfold cacheGet
  split_ifs with hcap
  · exact h
  · cases hl : cacheLookup c key' with
    | none => exact h
    | some w => exact keyVal_of_subset mem_moveToEnd_subset h

theorem applyOps_keyVal {α : Type} {cap : ℕ} {key : CacheKey} {v : α} :
    ∀ {ops : List (CacheOp α)} {c : Cache α},
      (∀ op ∈ ops, ¬ op.isPutOn key) → KeyVal c key v →
        KeyVal (applyOps cap c ops) key v := by
  intro ops
  induction ops with
  | nil => intro c _ h; exact h
  | cons op rest ih =>
    intro c hops h
    rw [applyOps, List.foldl_cons]
    refine ih (fun o ho => hops o (List.mem_cons_of_mem _ ho)) ?_
    cases op with
    | get k => exact cacheGet_keyVal h
    | put k w =>
      have hk : k ≠ key := hops (.put k w) (List.mem_cons_self _ _)
      exact cacheSet_keyVal_other hk h

theorem lookup_eq_of_keyVal {α : Type} {c : Cache α} {key : CacheKey} {v w : α}
    (hl : cacheLookup c key = some w) (h : KeyVal c key v) : w = v := by
  unfold cacheLookup at hl
  cases hf : c.find? (fun p => decide (p.1 = key)) with
  | none => rw [hf] at hl; cases hl
  | some p =>
    rw [hf] at hl
    have hmem := List.mem_of_find?_eq_some hf
    have hpk : p.1 = key := by simpa using List.find?_some hf
    have hpv := h p hmem hpk
    simp only [Option.map] at hl
    have hw : p.2 = w := Option.some.inj hl
    exact hw.symm.trans hpv


theorem exists_key_cacheAssign {α : Type} (c : Cache α) (key : CacheKey) (v : α) :
    ∃ p ∈ cacheAssign c key v, p.1 = key := by
  unfold cacheAssign
  split_ifs with h
  · rcases Option.isSome_iff_exists.mp h with ⟨q, hq⟩
    have hqmem := List.mem_of_find?_eq_some hq
    have hqk : q.1 = key := by simpa using List.find?_some hq
    exact ⟨(key, v), List.mem_map.mpr ⟨q, hqmem, by rw [if_pos hqk]⟩, rfl⟩
  · exact ⟨(key, v), List.mem_append.mpr (Or.inr (List.mem_singleton.mpr rfl)), rfl⟩

theorem evictOldest_keeps_last {α : Type} {cap : ℕ} (hcap : 1 ≤ cap) (e : CacheKey × α) :
    ∀ l : Cache α, e ∈ evictOldest cap (l ++ [e])
  | [] => by
    simp only [List.nil_append]
    unfold evictOldest
    rw [if_pos (by simpa using hcap)]
    simp
  | x :: l' => by
    rw [List.cons_append]
    unfold evictOldest
    split_ifs with h
    · simp
    · exact evictOldest_keeps_last hcap e l'

theorem lookup_isSome_of_mem {α : Type} {c : Cache α} {key : CacheKey}
    (h : ∃ p ∈ c, p.1 = key) : cacheLookup c key ≠ none := by
  unfold cacheLookup
  rcases h with ⟨p, hp, hpk⟩
  have : (c.find? (fun q => decide (q.1 = key))).isSome :=
    List.find?_isSome.mpr ⟨p, hp, by simpa using hpk⟩
  rcases Option.isSome_iff_exists.mp this with ⟨q, hq⟩
  rw [hq]
  simp

theorem cacheSet_lookup_self {α : Type} {cap : ℕ} (hcap : 0 < cap)
    (c : Cache α) (key : CacheKey) (v : α) :
    cacheLookup (cacheSet cap c key v) key = some v := by
  have hkv : KeyVal (cacheSet cap c key v) key v := cacheSet_keyVal_self (by omega) c key v
  have hmem : ∃ p ∈ cacheSet cap c key v, p.1 = key := by
    simp only [cacheSet, if_neg (by omega : ¬ cap = 0)]
    have hsome : ((cacheAssign c key v).find? (fun q => decide (q.1 = key))).isSome := by
      rcases exists_key_cacheAssign c key v with ⟨p, hp, hpk⟩
      exact List.find?_isSome.mpr ⟨p, hp, by simpa using hpk⟩
    rcases Option.isSome_iff_exists.mp hsome with ⟨entry, hentry⟩
    have hek : entry.1 = key := by simpa using List.find?_some hentry
    refine ⟨entry, ?_, hek⟩
    unfold moveToEnd
    rw [hentry]
    exact evictOldest_keeps_last hcap entry _
  have hsome := lookup_isSome_of_mem hmem
  cases hl : cacheLookup (cacheSet cap c key v) key with
  | none => exact absurd hl hsome
  | some w => rw [lookup_eq_of_keyVal hl hkv]

theorem applyOp_length_le {α : Type} {cap : ℕ} {c : Cache α} (hc : c.length ≤ cap)
    (op : CacheOp α) : (applyOp cap c op).length ≤ cap := by
  cases op with
  | get key =>
    show ((cacheGet cap c key).2).length ≤ cap
    unfold cacheGet
    split_ifs with hcap
    · exact hc
    · cases hl : cacheLookup c key with
      | none => exact hc
      | some w =>
        show (moveToEnd c key).length ≤ cap
        unfold moveToEnd
        cases hf : c.find? (fun p => decide (p.1 = key)) with
        | none => exact hc
        | some entry =>
          have := length_eraseP_of_find? hf
          simp only [List.length_append, List.length_cons, List.length_nil]
          omega
  | put key v =>
    show (cacheSet cap c key v).length ≤ cap
    unfold cacheSet
    split_ifs with hcap
    · exact hc
    · exact evictOldest_length cap _

theorem applyOps_length_le {α : Type} {cap : ℕ} :
    ∀ {ops : List (CacheOp α)} {c : Cache α}, c.length ≤ cap →
      (applyOps cap c ops).length ≤ cap := by
  intro ops
  induction ops with
  | nil => intro c hc; exact hc
  | cons op rest ih =>
    intro c hc
    rw [applyOps, List.foldl_cons]
    exact ih (applyOp_length_le hc op)

/-! ### C4 and C5: the inference cache -/

/-- C4: for capacity > 0, once records are stored for a
`(featureKind, signature)` pair the entry is immediately retrievable, and —
after any further operations that do not write this key, as long as the
entry has not been evicted — a cached-inference call for the same pair
returns a record list equal to the stored one without invoking the provider
(`false` invocation flag).  For capacity 0 the cache is disabled: every
lookup misses, nothing is ever stored, and the provider is invoked on every
call. -/
theorem c4_inference_cache (α : Type) (cap : ℕ) (cache : Cache (List α))
    (featureName : String) (sig : Frame) (records : List α)
    (ops : List (CacheOp (List α))) :
    (0 < cap →
      cacheLookup (cacheSet cap cache (featureName, sig) records) (featureName, sig)
        = some records ∧
      ((∀ op ∈ ops, ¬ op.isPutOn (featureName, sig)) →
        cacheLookup (applyOps cap (cacheSet cap cache (featureName, sig) records) ops)
            (featureName, sig) ≠ none →
        ∀ inferFn : Unit → Except String (List α),
          ∃ cacheAfter,
            cachedInference cap
                (applyOps cap (cacheSet cap cache (featureName, sig) records) ops)
                featureName sig inferFn = .ok (records, cacheAfter, false))) ∧
    (cap = 0 →
      (∀ (c : Cache (List α)) (key : CacheKey), cacheGet 0 c key = (none, c)) ∧
      (∀ (c : Cache (List α)) (key : CacheKey) (v : List α), cacheSet 0 c key v = c) ∧
      (∀ (c : Cache (List α)) (inferFn : Unit → Except String (List α)) (v : List α),
        inferFn () = .ok v →
          cachedInference 0 c featureName sig inferFn = .ok (v, c, true))) := by
  constructor
  · intro hcap
    refine ⟨cacheSet_lookup_self hcap cache _ records, ?_⟩
    intro hops hlook inferFn
    have hkv : KeyVal (applyOps cap (cacheSet cap cache (featureName, sig) records) ops)
        (featureName, sig) records :=
      applyOps_keyVal hops (cacheSet_keyVal_self (by omega) cache _ records)
    cases hl : cacheLookup (applyOps cap (cacheSet cap cache (featureName, sig) records) ops)
        (featureName, sig) with
    | none => exact absurd hl hlook
    | some w =>
      have hw : w = records := lookup_eq_of_keyVal hl hkv
      rw [hw] at hl
      refine ⟨moveToEnd (applyOps cap (cacheSet cap cache (featureName, sig) records) ops)
        (featureName, sig), ?_⟩
      have hget : cacheGet cap
          (applyOps cap (cacheSet cap cache (featureName, sig) records) ops)
          (featureName, sig) =
          (some records,
           moveToEnd (applyOps cap (cacheSet cap cache (featureName, sig) records) ops)
            (featureName, sig)) := by
        unfold cacheGet
        rw [if_neg (by omega : ¬ cap = 0), hl]
      simp only [cachedInference, hget]
  · intro hcap
    subst hcap
    refine ⟨fun c key => by simp [cacheGet], fun c key v => by simp [cacheSet], ?_⟩
    intro c inferFn v hv
    have hget : cacheGet 0 c (featureName, sig) = (none, c) := by simp [cacheGet]
    simp only [cachedInference, hget, hv]
    simp [cacheSet]

/-- C4 witness: store `[1, 2]` under a concrete key at capacity 2, read it
back (hit without provider invocation) after one unrelated read; and at
capacity 0 the provider is invoked and nothing is stored. -/
theorem c4_inference_cache_witness :
    cacheLookup (cacheSet 2 ([] : Cache (List ℕ)) ("labels", ⟨1, 1, [0]⟩) [1, 2])
        ("labels", ⟨1, 1, [0]⟩) = some [1, 2] ∧
    (∃ cacheAfter, cachedInference 2
        (applyOps 2 (cacheSet 2 ([] : Cache (List ℕ)) ("labels", ⟨1, 1, [0]⟩) [1, 2])
          [CacheOp.get ("labels", ⟨1, 1, [0]⟩)]) "labels" ⟨1, 1, [0]⟩
        (fun _ => .ok [99]) = .ok ([1, 2], cacheAfter, false)) ∧
    cachedInference 0 ([] : Cache (List ℕ)) "labels" ⟨1, 1, [0]⟩ (fun _ => .ok [7])
      = .ok ([7], [], true) := by
  have h := c4_inference_cache ℕ 2 [] "labels" ⟨1, 1, [0]⟩ [1, 2]
    [CacheOp.get ("labels", ⟨1, 1, [0]⟩)]
  have h0 := c4_inference_cache ℕ 0 [] "labels" ⟨1, 1, [0]⟩ [] []
  refine ⟨(h.1 (by norm_num)).1, ?_, (h0.2 rfl).2.2 [] _ [7] rfl⟩
  refine (h.1 (by norm_num)).2 ?_ (by decide) _
  intro op hop
  rcases List.mem_singleton.mp hop with rfl
  simp [CacheOp.isPutOn]

/-- C5: starting from an empty table, any sequence of get/put operations
leaves at most `cap` entries; a read of a present key moves its entry to
the most-recently-used end; and the eviction loop removes exactly the
oldest (least-recently-used) entries beyond the bound. -/
theorem c5_cache_bound_invariant (α : Type) (cap : ℕ) (ops : List (CacheOp α)) :
    (applyOps cap ([] : Cache α) ops).length ≤ cap ∧
    (∀ (c : Cache α) (key : CacheKey), cap ≠ 0 → cacheLookup c key ≠ none →
      ((cacheGet cap c key).2.getLast?.map Prod.fst) = some key) ∧
    (∀ c : Cache α, evictOldest cap c = c.drop (c.length - cap)) := by
  refine ⟨applyOps_length_le (by simp), ?_, evictOldest_drop cap⟩
  intro c key hcap hlook
  cases hl : cacheLookup c key with
  | none => exact absurd hl hlook
  | some w =>
    have hget : cacheGet cap c key = (some w, moveToEnd c key) := by
      unfold cacheGet
      rw [if_neg hcap, hl]
    rw [hget]
    unfold cacheLookup at hl
    cases hf : c.find? (fun p => decide (p.1 = key)) with
    | none => rw [hf] at hl; cases hl
    | some entry =>
      have hek : entry.1 = key := by simpa using List.find?_some hf
      unfold moveToEnd
      rw [hf]
      simp [List.getLast?_concat, hek]

/-- C5 witness: capacity 1 with two puts and a read — the table never
exceeds one entry, the read refreshes recency, eviction drops the head. -/
theorem c5_cache_bound_invariant_witness :
    (applyOps 1 ([] : Cache ℕ)
        [CacheOp.put ("labels", ⟨1, 1, [0]⟩) 5, CacheOp.put ("faces", ⟨1, 1, [0]⟩) 6,
         CacheOp.get ("faces", ⟨1, 1, [0]⟩)]).length ≤ 1 ∧
    ((cacheGet 1 ([((("faces", ⟨1, 1, [0]⟩) : CacheKey), 6)] : Cache ℕ)
        ("faces", ⟨1, 1, [0]⟩)).2.getLast?.map Prod.fst = some ("faces", ⟨1, 1, [0]⟩)) ∧
    evictOldest 1 ([(("labels", ⟨1, 1, [0]⟩), 5), (("faces", ⟨1, 1, [0]⟩), 6)] : Cache ℕ)
      = [(("faces", ⟨1, 1, [0]⟩), 6)] := by
  have h := c5_cache_bound_invariant ℕ 1
    [CacheOp.put ("labels", ⟨1, 1, [0]⟩) 5, CacheOp.put ("faces", ⟨1, 1, [0]⟩) 6,
     CacheOp.get ("faces", ⟨1, 1, [0]⟩)]
  refine ⟨h.1, h.2.1 _ _ (by norm_num) (by decide), ?_⟩
  rw [h.2.2]
  decide

/-! ### Helper lemmas: running maxima -/

theorem le_foldl_max_init : ∀ (l : List ℚ) (a : ℚ), a ≤ l.foldl max a
  | [], _ => le_refl _
  | b :: t, a => le_trans (le_max_left a b) (le_foldl_max_init t (max a b))

theorem le_foldl_max_mem : ∀ (l : List ℚ) (a x : ℚ), x ∈ l → x ≤ l.foldl max a
  | [], _, _, hx => absurd hx (List.not_mem_nil _)
  | b :: t, a, x, hx => by
    rcases List.mem_cons.mp hx with rfl | hx
    · exact le_trans (le_max_right a x) (le_foldl_max_init t (max a x))
    · exact le_foldl_max_mem t (max a b) x hx

theorem foldl_max_choice : ∀ (l : List ℚ) (a : ℚ), l.foldl max a = a ∨ l.foldl max a ∈ l
  | [], _ => Or.inl rfl
  | b :: t, a => by
    rcases foldl_max_choice t (max a b) with h | h
    · rcases max_choice a b with hm | hm
      · left
        rw [List.foldl_cons, h, hm]
      · right
        rw [List.foldl_cons, h, hm]
        exact List.mem_cons_self _ _
    · right
      exact List.mem_cons_of_mem _ h

/-! ### Helper lemmas: label grouping -/

theorem groupFor_label (records : List LabelRec) (name : String) :
    (groupFor records name).label = name := rfl

theorem groupFor_append_same (l : List LabelRec) (r : LabelRec) :
    groupFor (l ++ [r]) r.label =
      { label := r.label,
        count := (groupFor l r.label).count + 1,
        maxConfidence := max (groupFor l r.label).maxConfidence r.confidence,
        timestamps := (groupFor l r.label).timestamps ++ [r.timestamp] } := by
  unfold groupFor
  simp [List.filter_append, List.foldl_append]

theorem groupFor_append_other (l : List LabelRec) (r : LabelRec) {name : String}
    (h : ¬ r.label = name) : groupFor (l ++ [r]) name = groupFor l name := by
  unfold groupFor
  simp [List.filter_append, h]

theorem groupFor_of_not_mem {l : List LabelRec} {name : String}
    (h : ∀ rec ∈ l, ¬ rec.label = name) :
    groupFor l name = { label := name, count := 0, maxConfidence := 0, timestamps := [] } := by
  unfold groupFor
  have hf : l.filter (fun r => r.label == name) = [] := by
    rw [List.filter_eq_nil]
    intro a ha
    simpa using h a ha
  simp [hf]

theorem labelFold_spec (records : List LabelRec) :
    (∀ g ∈ records.foldl labelStep [], g = groupFor records g.label) ∧
    (∀ name, (∃ g ∈ records.foldl labelStep [], g.label = name) ↔
      (∃ r ∈ records, r.label = name)) ∧
    ((records.foldl labelStep []).map (fun g => g.label)).Nodup := by
  induction records using List.reverseRecOn with
  | nil => simp
  | append_singleton l r ih =>
    obtain ⟨ih1, ih2, ih3⟩ := ih
    rw [List.foldl_append, List.foldl_cons, List.foldl_nil]
    set acc := l.foldl labelStep [] with hacc
    by_cases hmem : acc.any (fun g => g.label == r.label)
    · -- the label already has a group: update in place
      have hstep : labelStep acc r =
          acc.map (fun g =>
            if g.label == r.label then
              { g with
                count := g.count + 1,
                maxConfidence := max g.maxConfidence r.confidence,
                timestamps := g.timestamps ++ [r.timestamp] }
            else g) := by
        unfold labelStep
        rw [if_pos hmem]
      rw [hstep]
      refine ⟨?_, ?_, ?_⟩
      · intro g' hg'
        rcases List.mem_map.mp hg' with ⟨g, hg, rfl⟩
        by_cases hlab : g.label = r.label
        · rw [if_pos (by simpa using hlab)]
          have hgf := ih1 g hg
          have : ({ g with
              count := g.count + 1,
              maxConfidence := max g.maxConfidence r.confidence,
              timestamps := g.timestamps ++ [r.timestamp] } : LabelGroup).label = g.label := rfl
          rw [this, hlab, groupFor_append_same]
          rw [hgf, hlab]
        · rw [if_neg (by simpa using hlab)]
          rw [groupFor_append_other l r (by
            intro hc
            exact hlab hc.symm)]
          exact ih1 g hg
      · intro name
        constructor
        · rintro ⟨g', hg', rfl⟩
          rcases List.mem_map.mp hg' with ⟨g, hg, rfl⟩
          have hl' : (∃ rec ∈ l, rec.label =
              (if g.label == r.label then
                ({ g with
                  count := g.count + 1,
                  maxConfidence := max g.maxConfidence r.confidence,
                  timestamps := g.timestamps ++ [r.timestamp] } : LabelGroup)
               else g).label) := by
            have hlabeq : (if g.label == r.label then
                ({ g with
                  count := g.count + 1,
                  maxConfidence := max g.maxConfidence r.confidence,
                  timestamps := g.timestamps ++ [r.timestamp] } : LabelGroup)
               else g).label = g.label := by
              split_ifs <;> rfl
            rw [hlabeq]
            exact (ih2 g.label).mp ⟨g, hg, rfl⟩
          rcases hl' with ⟨rec, hrec, hrecl⟩
          exact ⟨rec, List.mem_append.mpr (Or.inl hrec), hrecl⟩
        · rintro ⟨rec, hrec, rfl⟩
          rcases List.mem_append.mp hrec with hrec | hrec
          · rcases (ih2 rec.label).mpr ⟨rec, hrec, rfl⟩ with ⟨g, hg, hgl⟩
            refine ⟨_, List.mem_map.mpr ⟨g, hg, rfl⟩, ?_⟩
            split_ifs <;> exact hgl
          · rcases List.mem_singleton.mp hrec with rfl
            rcases List.any_eq_true.mp hmem with ⟨g, hg, hgl⟩
            refine ⟨_, List.mem_map.mpr ⟨g, hg, rfl⟩, ?_⟩
            have hgl' : g.label = rec.label := by simpa using hgl
            split_ifs <;> exact hgl'
      · have hlabels : (acc.map (fun g =>
            if g.label == r.label then
              { g with
                count := g.count + 1,
                maxConfidence := max g.maxConfidence r.confidence,
                timestamps := g.timestamps ++ [r.timestamp] }
            else g)).map (fun g => g.label) = acc.map (fun g => g.label) := by
          rw [List.map_map]
          apply List.map_congr_left
          intro g _
          simp only [Function.comp]
          split_ifs <;> rfl
        rw [hlabels]
        exact ih3
    · -- fresh label: append a zeroed group, then update it
      have hnot : ∀ g ∈ acc, ¬ g.label = r.label := by
        intro g hg hc
        exact hmem (List.any_eq_true.mpr ⟨g, hg, by simpa using hc⟩)
      have hnorec : ∀ rec ∈ l, ¬ rec.label = r.label := by
        intro rec hrec hc
        rcases (ih2 r.label).mpr ⟨rec, hrec, hc⟩ with ⟨g, hg, hgl⟩
        exact hnot g hg hgl
      have hstep : labelStep acc r =
          (acc ++ [({ label := r.label, count := 0, maxConfidence := 0,
                      timestamps := [] } : LabelGroup)]).map
            (fun g =>
              if g.label == r.label then
                ({ g with
                  count := g.count + 1,
                  maxConfidence := max g.maxConfidence r.confidence,
                  timestamps := g.timestamps ++ [r.timestamp] } : LabelGroup)
              else g) := by
        unfold labelStep
        rw [if_neg hmem]
      rw [hstep, List.map_append]
      have hmapacc : acc.map (fun g =>
          if g.label == r.label then
            ({ g with
              count := g.count + 1,
              maxConfidence := max g.maxConfidence r.confidence,
              timestamps := g.timestamps ++ [r.timestamp] } : LabelGroup)
          else g) = acc := by
        have hcongr := List.map_congr_left
          (f := fun g =>
            if g.label == r.label then
              ({ g with
                count := g.count + 1,
                maxConfidence := max g.maxConfidence r.confidence,
                timestamps := g.timestamps ++ [r.timestamp] } : LabelGroup)
            else g)
          (g := id) (l := acc)
          (fun g hg => by
            have h := hnot g hg
            simp [h])
        rw [hcongr, List.map_id]
      have hmapnew : ([({ label := r.label, count := 0, maxConfidence := 0,
                          timestamps := [] } : LabelGroup)]).map (fun g =>
            if g.label == r.label then
              ({ g with
                count := g.count + 1,
                maxConfidence := max g.maxConfidence r.confidence,
                timestamps := g.timestamps ++ [r.timestamp] } : LabelGroup)
            else g) =
          [({ label := r.label, count := 1, maxConfidence := max 0 r.confidence,
              timestamps := [r.timestamp] } : LabelGroup)] := by
        simp
      rw [hmapacc, hmapnew]
      refine ⟨?_, ?_, ?_⟩
      · intro g' hg'
        rcases List.mem_append.mp hg' with hg | hg
        · rw [groupFor_append_other l r (by
            intro hc
            exact hnot g' hg (by rw [hc]))]
          exact ih1 g' hg
        · rcases List.mem_singleton.mp hg with rfl
          rw [show ({ label := r.label, count := 1, maxConfidence := max 0 r.confidence,
                      timestamps := [r.timestamp] } : LabelGroup).label = r.label from rfl]
          rw [groupFor_append_same, groupFor_of_not_mem hnorec]
          rfl
      · intro name
        constructor
        · rintro ⟨g', hg', rfl⟩
          rcases List.mem_append.mp hg' with hg | hg
          · rcases (ih2 g'.label).mp ⟨g', hg, rfl⟩ with ⟨rec, hrec, hrecl⟩
            exact ⟨rec, List.mem_append.mpr (Or.inl hrec), hrecl⟩
          · rcases List.mem_singleton.mp hg with rfl
            exact ⟨r, List.mem_append.mpr (Or.inr (List.mem_singleton.mpr rfl)), rfl⟩
        · rintro ⟨rec, hrec, rfl⟩
          rcases List.mem_append.mp hrec with hrec | hrec
          · rcases (ih2 rec.label).mpr ⟨rec, hrec, rfl⟩ with ⟨g, hg, hgl⟩
            exact ⟨g, List.mem_append.mpr (Or.inl hg), hgl⟩
          · rcases List.mem_singleton.mp hrec with rfl
            exact ⟨_, List.mem_append.mpr (Or.inr (List.mem_singleton.mpr rfl)), rfl⟩
      · rw [List.map_append]
        simp only [List.map_cons, List.map_nil]
        rw [List.nodup_append]
        refine ⟨ih3, List.nodup_singleton _, ?_⟩
        intro a ha hb
        rcases List.mem_map.mp ha with ⟨g, hg, rfl⟩
        rcases List.mem_singleton.mp hb with hb
        exact hnot g hg hb

/-! ### C6: label aggregation -/

/-- C6: for a non-empty record collection (with the detector's nonnegative
confidences), aggregation groups records by label name — each group carries
the occurrence count, the maximum confidence over the group, and the list of
observed timestamps — sorts groups by `(count, maxConfidence)` descending
lexicographically (count dominates) and keeps at most the top 20; on the
spec's example `dog` (count 2, max 0.9) ranks above `cat` (count 1,
max 0.95). -/
theorem c6_label_aggregation (records : List LabelRec) (hne : records ≠ [])
    (hconf : ∀ r ∈ records, 0 ≤ r.confidence) :
    (postProcessLabels records).length ≤ 20 ∧
    (postProcessLabels records).Sorted labelKeyGE ∧
    (∀ g ∈ postProcessLabels records,
      g.count = (records.filter (fun r => r.label == g.label)).length ∧
      g.timestamps = (records.filter (fun r => r.label == g.label)).map
        (fun r => r.timestamp) ∧
      (∀ r ∈ records.filter (fun r => r.label == g.label), r.confidence ≤ g.maxConfidence) ∧
      (∃ r ∈ records.filter (fun r => r.label == g.label), g.maxConfidence = r.confidence)) ∧
    (∀ t1 t2 t3 : ℚ,
      postProcessLabels [⟨"dog", 9/10, t1⟩, ⟨"dog", 4/10, t2⟩, ⟨"cat", 19/20, t3⟩] =
        [⟨"dog", 2, 9/10, [t1, t2]⟩, ⟨"cat", 1, 19/20, [t3]⟩]) := by
  have hpp : postProcessLabels records =
      (List.insertionSort labelKeyGE (records.foldl labelStep [])).take 20 := by
    unfold postProcessLabels
    rw [if_neg (by simpa using hne)]
  refine ⟨?_, ?_, ?_, ?_⟩
  · rw [hpp]
    exact List.length_take_le _ _
  · rw [hpp]
    exact List.Pairwise.sublist (List.take_sublist _ _)
      (List.sorted_insertionSort labelKeyGE _)
  · intro g hg
    rw [hpp] at hg
    have hg2 : g ∈ List.insertionSort labelKeyGE (records.foldl labelStep []) :=
      List.mem_of_mem_take hg
    have hg3 : g ∈ records.foldl labelStep [] :=
      (List.perm_insertionSort labelKeyGE _).mem_iff.mp hg2
    have hgf := (labelFold_spec records).1 g hg3
    obtain ⟨n, hn⟩ : ∃ n, g.label = n := ⟨g.label, rfl⟩
    rw [hn] at hgf
    subst hgf
    have hlbl : (groupFor records n).label = n := groupFor_label records n
    simp only [hlbl]
    refine ⟨rfl, rfl, ?_, ?_⟩
    · intro r hr
      exact le_foldl_max_mem _ 0 r.confidence
        (List.mem_map.mpr ⟨r, hr, rfl⟩)
    · rcases foldl_max_choice
        ((records.filter (fun r => r.label == n)).map (fun r => r.confidence)) 0 with hc | hc
      · -- the maximum is some record's confidence
        have hfx : (groupFor records n).maxConfidence = 0 := hc
        rcases (labelFold_spec records).2.1 n |>.mp ⟨groupFor records n, hg3, hlbl⟩ with
          ⟨rec, hrec, hrecl⟩
        have hrecf : rec ∈ records.filter (fun r => r.label == n) :=
          List.mem_filter.mpr ⟨hrec, by simpa using hrecl⟩
        have h1 : rec.confidence ≤ (groupFor records n).maxConfidence :=
          le_foldl_max_mem _ 0 rec.confidence (List.mem_map.mpr ⟨rec, hrecf, rfl⟩)
        have h2 : 0 ≤ rec.confidence := hconf rec hrec
        exact ⟨rec, hrecf, by
          rw [hfx] at h1 ⊢
          linarith⟩
      · rcases List.mem_map.mp hc with ⟨r, hr, hrc⟩
        exact ⟨r, hr, hrc.symm⟩
  · intro t1 t2 t3
    simp only [postProcessLabels, labelStep, List.isEmpty, List.foldl_cons, List.foldl_nil,
      List.insertionSort, List.orderedInsert]
    norm_num [labelKeyGE]
    simp only [show ("dog" = "cat") = False by simp, if_false]
    norm_num

/-- C6 witness: the spec's dog/cat aggregation example at concrete
timestamps. -/
theorem c6_label_aggregation_witness :
    postProcessLabels [⟨"dog", 9/10, 1⟩, ⟨"dog", 4/10, 2⟩, ⟨"cat", 19/20, 3⟩] =
      [⟨"dog", 2, 9/10, [1, 2]⟩, ⟨"cat", 1, 19/20, [3]⟩] :=
  (c6_label_aggregation [⟨"dog", 9/10, 1⟩, ⟨"dog", 4/10, 2⟩, ⟨"cat", 19/20, 3⟩]
    (by simp)
    (by
      intro r hr
      simp only [List.mem_cons, List.not_mem_nil, or_false] at hr
      rcases hr with rfl | rfl | rfl <;> norm_num)).2.2.2 1 2 3

/-! ### Helper lemmas: greedy face dedup -/

theorem iou_comm (a b : BBox) : iou a b = iou b a := by
  simp only [iou]
  rw [max_comm a.x1 b.x1, max_comm a.y1 b.y1, min_comm a.x2 b.x2, min_comm a.y2 b.y2,
    add_comm ((0 ⊔ (a.x2 - a.x1)) * (0 ⊔ (a.y2 - a.y1)))]

theorem foldl_dedupKeep_split :
    ∀ (cands : List FaceRow) (kept : List FaceRow),
      ∃ sub, cands.foldl dedupKeep kept = kept ++ sub ∧ sub.Sublist cands
  | [], kept => ⟨[], by simp⟩
  | c :: rest, kept => by
    rw [List.foldl_cons]
    by_cases h : kept.any (fun current => decide ((35/100 : ℚ) < iou c.bbox current.bbox))
    · have hstep : dedupKeep kept c = kept := by
        unfold dedupKeep
        rw [if_pos h]
      rw [hstep]
      rcases foldl_dedupKeep_split rest kept with ⟨sub, hsub, hsl⟩
      exact ⟨sub, hsub, hsl.cons c⟩
    · have hstep : dedupKeep kept c = kept ++ [c] := by
        unfold dedupKeep
        rw [if_neg h]
      rw [hstep]
      rcases foldl_dedupKeep_split rest (kept ++ [c]) with ⟨sub, hsub, hsl⟩
      refine ⟨c :: sub, ?_, hsl.cons₂ c⟩
      rw [hsub, List.append_assoc]
      rfl

theorem foldl_dedupKeep_pairwise :
    ∀ (cands : List FaceRow) (kept : List FaceRow),
      kept.Pairwise (fun a b => iou b.bbox a.bbox ≤ 35/100) →
        (cands.foldl dedupKeep kept).Pairwise (fun a b => iou b.bbox a.bbox ≤ 35/100)
  | [], _, hk => hk
  | c :: rest, kept, hk => by
    rw [List.foldl_cons]
    by_cases h : kept.any (fun current => decide ((35/100 : ℚ) < iou c.bbox current.bbox))
    · have hstep : dedupKeep kept c = kept := by
        unfold dedupKeep
        rw [if_pos h]
      rw [hstep]
      exact foldl_dedupKeep_pairwise rest kept hk
    · have hstep : dedupKeep kept c = kept ++ [c] := by
        unfold dedupKeep
        rw [if_neg h]
      rw [hstep]
      refine foldl_dedupKeep_pairwise rest (kept ++ [c]) ?_
      rw [List.pairwise_append]
      refine ⟨hk, List.pairwise_singleton _ _, ?_⟩
      intro x hx y hy
      rcases List.mem_singleton.mp hy with rfl
      have hfalse : kept.any
          (fun current => decide ((35/100 : ℚ) < iou y.bbox current.bbox)) = false := by
        simpa using h
      have := List.any_eq_false.mp hfalse x hx
      simp only [decide_eq_true_eq] at this
      linarith [not_lt.mp this]

theorem foldl_dedupKeep_dropped :
    ∀ (cands : List FaceRow) (kept : List FaceRow) (c : FaceRow),
      c ∈ cands → c ∉ cands.foldl dedupKeep kept →
        ∃ k ∈ cands.foldl dedupKeep kept, 35/100 < iou c.bbox k.bbox
  | [], _, c, hc, _ => absurd hc (List.not_mem_nil c)
  | a :: rest, kept, c, hc, hnot => by
    rw [List.foldl_cons] at hnot ⊢
    rcases List.mem_cons.mp hc with rfl | hc
    · by_cases h : kept.any
        (fun current => decide ((35/100 : ℚ) < iou c.bbox current.bbox))
      · have hstep : dedupKeep kept c = kept := by
          unfold dedupKeep
          rw [if_pos h]
        rcases List.any_eq_true.mp h with ⟨cur, hcur, hcur2⟩
        simp only [decide_eq_true_eq] at hcur2
        rcases foldl_dedupKeep_split rest (dedupKeep kept c) with ⟨sub, hsub, _⟩
        refine ⟨cur, ?_, hcur2⟩
        rw [hsub, hstep]
        exact List.mem_append.mpr (Or.inl hcur)
      · have hstep : dedupKeep kept c = kept ++ [c] := by
          unfold dedupKeep
          rw [if_neg h]
        exfalso
        apply hnot
        rcases foldl_dedupKeep_split rest (dedupKeep kept c) with ⟨sub, hsub, _⟩
        rw [hsub, hstep]
        exact List.mem_append.mpr (Or.inl (List.mem_append.mpr (Or.inr (List.mem_singleton.mpr rfl))))
    · exact foldl_dedupKeep_dropped rest (dedupKeep kept a) c hc hnot

/-! ### C7: within-frame face dedup -/

/-- C7: within-frame dedup processes detections in descending confidence
order and keeps a detection iff its bbox IoU with every already-kept
detection is ≤ 0.35: the result is confidence-sorted, pairwise
low-overlapping, drawn from the input, and every dropped detection
overlaps some kept one with IoU > 0.35; consequently two detections with
IoU 0.9 and distinct confidences collapse to the higher-confidence one. -/
theorem c7_face_dedup :
    (∀ faces : List FaceRow,
      (dedupeFaces faces).Sorted faceConfGE ∧
      (dedupeFaces faces).Pairwise (fun a b => iou b.bbox a.bbox ≤ 35/100) ∧
      (∀ c ∈ dedupeFaces faces, c ∈ faces) ∧
      (∀ c ∈ List.insertionSort faceConfGE faces, c ∉ dedupeFaces faces →
        ∃ k ∈ dedupeFaces faces, 35/100 < iou c.bbox k.bbox)) ∧
    (∀ f g : FaceRow, iou f.bbox g.bbox = 9/10 → g.confidence < f.confidence →
      dedupeFaces [f, g] = [f] ∧ dedupeFaces [g, f] = [f]) := by
  constructor
  · intro faces
    by_cases hemp : faces.isEmpty
    · have h : dedupeFaces faces = [] := by
        unfold dedupeFaces
        rw [if_pos hemp]
      rw [h]
      have hfe : faces = [] := by
        cases faces
        · rfl
        · cases hemp
      subst hfe
      refine ⟨List.sorted_nil, List.Pairwise.nil, by simp, by simp⟩
    · have h : dedupeFaces faces = (List.insertionSort faceConfGE faces).foldl dedupKeep [] := by
        unfold dedupeFaces
        rw [if_neg hemp]
      rcases foldl_dedupKeep_split (List.insertionSort faceConfGE faces) [] with
        ⟨sub, hsub, hsl⟩
      rw [List.nil_append] at hsub
      refine ⟨?_, ?_, ?_, ?_⟩
      · rw [h, hsub]
        exact List.Pairwise.sublist hsl (List.sorted_insertionSort faceConfGE faces)
      · rw [h]
        exact foldl_dedupKeep_pairwise _ [] List.Pairwise.nil
      · intro c hc
        rw [h, hsub] at hc
        exact (List.perm_insertionSort faceConfGE faces).mem_iff.mp (hsl.mem hc)
      · intro c hc hnc
        rw [h] at hnc ⊢
        exact foldl_dedupKeep_dropped _ [] c hc hnc
  · intro f g hiou hconf
    have hsort1 : List.insertionSort faceConfGE [f, g] = [f, g] := by
      simp [List.insertionSort, List.orderedInsert, faceConfGE, le_of_lt hconf]
    have hsort2 : List.insertionSort faceConfGE [g, f] = [f, g] := by
      simp [List.insertionSort, List.orderedInsert, faceConfGE, not_le.mpr hconf]
    have hfold : ([f, g] : List FaceRow).foldl dedupKeep [] = [f] := by
      rw [List.foldl_cons, List.foldl_cons, List.foldl_nil]
      have h1 : dedupKeep [] f = [f] := by
        unfold dedupKeep
        simp
      rw [h1]
      unfold dedupKeep
      rw [if_pos]
      rw [List.any_cons, List.any_nil]
      have : iou g.bbox f.bbox = 9/10 := by
        rw [iou_comm, hiou]
      simp only [this]
      norm_num
    constructor
    · have : dedupeFaces [f, g] = ([f, g] : List FaceRow).foldl dedupKeep [] := by
        unfold dedupeFaces
        rw [if_neg (by simp)]
        rw [hsort1]
      rw [this, hfold]
    · have : dedupeFaces [g, f] = ([f, g] : List FaceRow).foldl dedupKeep [] := by
        unfold dedupeFaces
        rw [if_neg (by simp)]
        rw [hsort2]
      rw [this, hfold]

/-- C7 witness: two concrete unit boxes with IoU exactly 0.9 and distinct
confidences collapse to the higher-confidence detection, in either input
order. -/
theorem c7_face_dedup_witness :
    dedupeFaces [⟨⟨0, 0, 1, 1⟩, 9/10⟩, ⟨⟨0, 1/19, 1, 20/19⟩, 1/2⟩]
      = [⟨⟨0, 0, 1, 1⟩, 9/10⟩] ∧
    dedupeFaces [⟨⟨0, 1/19, 1, 20/19⟩, 1/2⟩, ⟨⟨0, 0, 1, 1⟩, 9/10⟩]
      = [⟨⟨0, 0, 1, 1⟩, 9/10⟩] :=
  c7_face_dedup.2 ⟨⟨0, 0, 1, 1⟩, 9/10⟩ ⟨⟨0, 1/19, 1, 20/19⟩, 1/2⟩
    (by
      unfold iou
      norm_num)
    (by norm_num)

/-! ### Helper lemmas: temporal face grouping -/

theorem groupFacesGo_spec (t : ℚ) :
    ∀ (fuel : ℕ) (faces : List FaceRec) (gid : ℕ), faces.length ≤ fuel →
      (((groupFacesGo t fuel faces gid).map (fun g => g.detections)).flatten).Perm faces ∧
      (∀ g ∈ groupFacesGo t fuel faces gid,
        g.detections ≠ [] ∧
        g.firstSeen = (g.detections.headD noFace).timestamp ∧
        g.lastSeen = (g.detections.getLastD noFace).timestamp ∧
        g.detectionCount = g.detections.length ∧
        (∀ f ∈ g.detections.tail, facesAreSimilar (g.detections.headD noFace) f t = true)) ∧
      ((groupFacesGo t fuel faces gid).map (fun g => g.faceId)) =
        List.range' gid (groupFacesGo t fuel faces gid).length ∧
      (groupFacesGo t fuel faces gid).Pairwise
        (fun g1 g2 => ∀ f ∈ g2.detections,
          facesAreSimilar (g1.detections.headD noFace) f t = false) := by
  intro fuel
  induction fuel with
  | zero =>
    intro faces gid hlen
    have hfe : faces = [] := List.length_eq_zero.mp (by omega)
    subst hfe
    simp [groupFacesGo]
  | succ fuel ih =>
    intro faces gid hlen
    cases faces with
    | nil => simp [groupFacesGo]
    | cons seed rest =>
      have hrec : groupFacesGo t (fuel + 1) (seed :: rest) gid =
          { faceId := gid,
            detections := seed :: rest.filter (fun f => facesAreSimilar seed f t),
            firstSeen := seed.timestamp,
            lastSeen := ((rest.filter (fun f => facesAreSimilar seed f t)).getLastD seed).timestamp,
            detectionCount := (seed :: rest.filter (fun f => facesAreSimilar seed f t)).length } ::
            groupFacesGo t fuel (rest.filter (fun f => !(facesAreSimilar seed f t))) (gid + 1) := rfl
      have hrem : (rest.filter (fun f => !(facesAreSimilar seed f t))).length ≤ fuel := by
        have := List.length_filter_le (fun f => !(facesAreSimilar seed f t)) rest
        simp only [List.length_cons] at hlen
        omega
      obtain ⟨ih1, ih2, ih3, ih4⟩ := ih (rest.filter (fun f => !(facesAreSimilar seed f t))) (gid + 1) hrem
      rw [hrec]
      refine ⟨?_, ?_, ?_, ?_⟩
      · simp only [List.map_cons, List.flatten_cons]
        have hstep : (seed :: rest.filter (fun f => facesAreSimilar seed f t)) ++
            ((groupFacesGo t fuel (rest.filter (fun f => !(facesAreSimilar seed f t)))
              (gid + 1)).map (fun g => g.detections)).flatten =
            seed :: (rest.filter (fun f => facesAreSimilar seed f t) ++
            ((groupFacesGo t fuel (rest.filter (fun f => !(facesAreSimilar seed f t)))
              (gid + 1)).map (fun g => g.detections)).flatten) := rfl
        rw [hstep]
        refine List.Perm.cons seed ?_
        refine List.Perm.trans (List.Perm.append_left _ ih1) ?_
        exact List.filter_append_perm _ rest
      · intro g hg
        rcases List.mem_cons.mp hg with rfl | hg
        · refine ⟨by simp, rfl, ?_, rfl, ?_⟩
          · show ((rest.filter (fun f => facesAreSimilar seed f t)).getLastD seed).timestamp =
              ((seed :: rest.filter (fun f => facesAreSimilar seed f t)).getLastD noFace).timestamp
            rw [List.getLastD_cons]
          · intro f hf
            have hmem : f ∈ rest.filter (fun x => facesAreSimilar seed x t) := hf
            exact (List.mem_filter.mp hmem).2
        · exact ih2 g hg
      · simp only [List.map_cons, List.length_cons]
        rw [List.range'_succ]
        simp only [List.cons.injEq, true_and]
        exact ih3
      · refine List.Pairwise.cons ?_ ih4
        intro g2 hg2 f hf
        have hfj : f ∈ ((groupFacesGo t fuel
            (rest.filter (fun f => !(facesAreSimilar seed f t))) (gid + 1)).map
            (fun g => g.detections)).flatten :=
          List.mem_flatten.mpr ⟨g2.detections, List.mem_map.mpr ⟨g2, hg2, rfl⟩, hf⟩
        have hfr : f ∈ rest.filter (fun f => !(facesAreSimilar seed f t)) :=
          ih1.mem_iff.mp hfj
        have := (List.mem_filter.mp hfr).2
        simpa using this

/-! ### C8: temporal face grouping -/

/-- C8: temporal grouping iterates over the accumulated detections in
order; each group's members are its seed followed by the later unassigned
detections similar to the seed (and members of later groups are never
similar to an earlier seed — the greedy pass absorbs every one that is);
the groups partition the input, record `first_seen` (the seed's timestamp),
`last_seen` (the last member's timestamp), the member detections and the
member count, and carry consecutive group ids. -/
theorem c8_face_temporal_grouping (faces : List FaceRec) :
    ((groupFacesOverTime faces).map (fun g => g.detections)).flatten.Perm faces ∧
    (∀ g ∈ groupFacesOverTime faces,
      g.detections ≠ [] ∧
      g.firstSeen = (g.detections.headD noFace).timestamp ∧
      g.lastSeen = (g.detections.getLastD noFace).timestamp ∧
      g.detectionCount = g.detections.length ∧
      (∀ f ∈ g.detections.tail,
        facesAreSimilar (g.detections.headD noFace) f (3/10) = true)) ∧
    (groupFacesOverTime faces).map (fun g => g.faceId) =
      List.range (groupFacesOverTime faces).length ∧
    (groupFacesOverTime faces).Pairwise
      (fun g1 g2 => ∀ f ∈ g2.detections,
        facesAreSimilar (g1.detections.headD noFace) f (3/10) = false) := by
  obtain ⟨h1, h2, h3, h4⟩ :=
    groupFacesGo_spec (3/10) faces.length faces 0 (le_refl _)
  exact ⟨h1, h2, by rw [List.range_eq_range']; exact h3, h4⟩

/-- C8 witness: three concrete detections — two near-coincident boxes and a
distant one — grouped by the pipeline; the partition and the sequential
group ids follow from the theorem at this input. -/
theorem c8_face_temporal_grouping_witness :
    ((groupFacesOverTime
        [⟨⟨0, 0, 2, 2⟩, 1, 10⟩, ⟨⟨1/10, 0, 21/10, 2⟩, 1, 20⟩, ⟨⟨10, 10, 12, 12⟩, 1, 30⟩]).map
      (fun g => g.detections)).flatten.Perm
        [⟨⟨0, 0, 2, 2⟩, 1, 10⟩, ⟨⟨1/10, 0, 21/10, 2⟩, 1, 20⟩, ⟨⟨10, 10, 12, 12⟩, 1, 30⟩] ∧
    (groupFacesOverTime
        [⟨⟨0, 0, 2, 2⟩, 1, 10⟩, ⟨⟨1/10, 0, 21/10, 2⟩, 1, 20⟩, ⟨⟨10, 10, 12, 12⟩, 1, 30⟩]).map
      (fun g => g.faceId) =
      List.range (groupFacesOverTime
        [⟨⟨0, 0, 2, 2⟩, 1, 10⟩, ⟨⟨1/10, 0, 21/10, 2⟩, 1, 20⟩, ⟨⟨10, 10, 12, 12⟩, 1, 30⟩]).length :=
  ⟨(c8_face_temporal_grouping
      [⟨⟨0, 0, 2, 2⟩, 1, 10⟩, ⟨⟨1/10, 0, 21/10, 2⟩, 1, 20⟩, ⟨⟨10, 10, 12, 12⟩, 1, 30⟩]).1,
   (c8_face_temporal_grouping
      [⟨⟨0, 0, 2, 2⟩, 1, 10⟩, ⟨⟨1/10, 0, 21/10, 2⟩, 1, 20⟩, ⟨⟨10, 10, 12, 12⟩, 1, 30⟩]).2.2.1⟩

/-! ### Helper lemmas: static prefilter -/

theorem foldl_max_le_of :
    ∀ (l : List ℚ) (a c : ℚ), a ≤ c → (∀ x ∈ l, x ≤ c) → l.foldl max a ≤ c
  | [], _, _, ha, _ => ha
  | b :: t, a, c, ha, hl => by
    rw [List.foldl_cons]
    exact foldl_max_le_of t (max a b) c (max_le ha (hl b (List.mem_cons_self _ _)))
      (fun x hx => hl x (List.mem_cons_of_mem _ hx))

theorem staticMax_le_iff {diffs : List ℚ} (h : diffs ≠ []) (c : ℚ) :
    staticMax diffs ≤ c ↔ ∀ d ∈ diffs, d ≤ c := by
  cases diffs with
  | nil => exact absurd rfl h
  | cons d ds =>
    unfold staticMax
    constructor
    · intro hm x hx
      rcases List.mem_cons.mp hx with rfl | hx
      · exact le_trans (le_foldl_max_init ds x) hm
      · exact le_trans (le_foldl_max_mem ds d x hx) hm
    · intro hall
      exact foldl_max_le_of ds d c (hall d (List.mem_cons_self _ _))
        (fun x hx => hall x (List.mem_cons_of_mem _ hx))

/-! ### C3: the static-video prefilter -/

/-- C3: when at least two probe thumbnails were read, the prefilter declares
the video static iff the mean of the consecutive absolute differences is ≤
the configured threshold and every one of them (equivalently, their
maximum) is ≤ 1.35 × the threshold; and whenever the prefilter ran and
declared static, the plan used for analysis — reported as
`sampled_frame_indices` — collapses to exactly the first index of the
original plan. -/
theorem c3_static_prefilter (cfg : VideoConfig) (frameAt : ℕ → Option Frame)
    (frameIndices : List ℕ) (stream : StreamData) (features : List String)
    (sampleRate : ℤ) (visionLoaded faceLoaded ocrLoaded : Bool)
    (detectObjects : Frame → Except String (List LabelRow))
    (detectFacesFn : Frame → Except String (List FaceRow))
    (extractTextFn : Frame → Except String (List TextRow))
    (caches : Caches) :
    (2 ≤ (staticGrayFrames cfg frameAt frameIndices).length →
      ((isStaticVideo cfg frameAt frameIndices).1 = true ↔
        (staticMean (staticDiffs (staticGrayFrames cfg frameAt frameIndices)) ≤
            cfg.staticDiffThreshold ∧
         ∀ d ∈ staticDiffs (staticGrayFrames cfg frameAt frameIndices),
           d ≤ cfg.staticDiffThreshold * (135/100)))) ∧
    (cfg.staticPrefilterEnabled = true →
      1 < (planOf cfg stream sampleRate).length →
      (isStaticVideo cfg stream.frameAt (planOf cfg stream sampleRate)).1 = true →
      (analyzeVideoOpened cfg stream features sampleRate visionLoaded faceLoaded ocrLoaded
          detectObjects detectFacesFn extractTextFn caches).1.metadata.sampledFrameIndices =
        (planOf cfg stream sampleRate).take 1) := by
  constructor
  · intro hg
    have hfmle : (staticGrayFrames cfg frameAt frameIndices).length ≤
        (staticProbeIndices cfg frameIndices).length := by
      unfold staticGrayFrames
      exact List.length_filterMap_le _ _
    have hprobe : ¬ (staticProbeIndices cfg frameIndices).length < 2 := by omega
    have hgray2 : ¬ (staticGrayFrames cfg frameAt frameIndices).length < 2 := by omega
    have hdlen : (staticDiffs (staticGrayFrames cfg frameAt frameIndices)).length =
        (staticGrayFrames cfg frameAt frameIndices).length - 1 := by
      unfold staticDiffs
      rw [List.length_map, List.length_zip, List.length_tail]
      omega
    have hdne : (staticDiffs (staticGrayFrames cfg frameAt frameIndices)) ≠ [] := by
      intro hc
      rw [hc] at hdlen
      simp at hdlen
      omega
    have hdnemp : ¬ (staticDiffs (staticGrayFrames cfg frameAt frameIndices)).isEmpty = true := by
      intro hc
      exact hdne (List.isEmpty_iff.mp hc)
    unfold isStaticVideo
    rw [if_neg hprobe, if_neg hgray2, if_neg hdnemp]
    simp only [Bool.and_eq_true, decide_eq_true_eq]
    exact and_congr_right (fun _ => staticMax_le_iff hdne _)
  · intro hen hplan hstatic
    show effectivePlan (staticOutcome cfg stream (planOf cfg stream sampleRate))
        (planOf cfg stream sampleRate) = (planOf cfg stream sampleRate).take 1
    have hout : staticOutcome cfg stream (planOf cfg stream sampleRate) =
        some (isStaticVideo cfg stream.frameAt (planOf cfg stream sampleRate)) := by
      unfold staticOutcome
      rw [if_pos ⟨hen, hplan⟩]
    rw [hout]
    rcases hiso : isStaticVideo cfg stream.frameAt (planOf cfg stream sampleRate) with ⟨b, d⟩
    rw [hiso] at hstatic
    simp only at hstatic
    subst hstatic
    rfl

/-- C3 witness: a two-frame constant clip (all probe thumbnails identical)
is declared static, and the analyzed plan collapses to the first index of
the original two-index plan. -/
theorem c3_static_prefilter_witness :
    (isStaticVideo ⟨12, 960, true, 4, 17/2, 64⟩ (fun _ => some ⟨1, 1, [5]⟩) [0, 1]).1 = true ∧
    (analyzeVideoOpened ⟨12, 960, true, 4, 17/2, 64⟩ ⟨1, 2, fun _ => some ⟨1, 1, [5]⟩⟩ [] 1
        false false false (fun _ => .ok []) (fun _ => .ok []) (fun _ => .ok [])
        ⟨[], [], []⟩).1.metadata.sampledFrameIndices =
      (planOf ⟨12, 960, true, 4, 17/2, 64⟩ ⟨1, 2, fun _ => some ⟨1, 1, [5]⟩⟩ 1).take 1 := by
  have hc := c3_static_prefilter ⟨12, 960, true, 4, 17/2, 64⟩ (fun _ => some ⟨1, 1, [5]⟩)
    [0, 1] ⟨1, 2, fun _ => some ⟨1, 1, [5]⟩⟩ [] 1 false false false
    (fun _ => .ok []) (fun _ => .ok []) (fun _ => .ok []) ⟨[], [], []⟩
  have hgray : staticGrayFrames ⟨12, 960, true, 4, 17/2, 64⟩ (fun _ => some ⟨1, 1, [5]⟩)
      [0, 1] = [[5], [5]] := by decide
  have hstaticTrue : (isStaticVideo ⟨12, 960, true, 4, 17/2, 64⟩ (fun _ => some ⟨1, 1, [5]⟩)
      [0, 1]).1 = true := by
    refine (hc.1 (by rw [hgray]; norm_num)).mpr ⟨?_, ?_⟩
    · rw [hgray]
      norm_num [staticDiffs, staticMean, absMeanDiff]
    · rw [hgray]
      intro d hd
      simp only [staticDiffs, List.tail_cons, List.zip_cons_cons, List.zip_nil_right,
        List.map_cons, List.map_nil, List.mem_singleton] at hd
      subst hd
      norm_num [absMeanDiff]
  have hbase : samplingBase 2 1 1 = [0, 1] := by
    unfold samplingBase
    have hint : ((max (pyRound ((1 : ℚ) * ((1 : ℕ) : ℚ))) 1).toNat) = 1 := by
      norm_num [pyRound]
    rw [hint]
    decide
  have hraw : samplingRawIndices 2 1 1 = [0, 1] := by
    rw [samplingRawIndices_def, hbase]
    decide
  have hfps : normalizedFps 1 = 1 := by norm_num [normalizedFps]
  have hrate : normalizedRate 1 = 1 := by decide
  have hplanW : planOf ⟨12, 960, true, 4, 17/2, 64⟩ ⟨1, 2, fun _ => some ⟨1, 1, [5]⟩⟩ 1
      = [0, 1] := by
    show samplingFrameIndices 12 2 (normalizedFps 1) (normalizedRate 1) = [0, 1]
    rw [hfps, hrate]
    unfold samplingFrameIndices
    rw [if_neg (by norm_num), hraw]
    decide
  refine ⟨hstaticTrue, hc.2 rfl (by rw [hplanW]; norm_num) ?_⟩
  rw [hplanW]
  exact hstaticTrue

/-! ### C9: analyze_video result shape and failure semantics -/

/-- C9: for every input and all Capability Provider behaviours (any returned
rows, any raise modelled as `Except.error`), the handle is released
(trailing `true` on every path); when the stream opened, `analyze_video`
returns exactly one well-formed result whose dict carries the keys
`metadata`, `labels`, `faces`, `scenes` and `text` (with possibly empty
lists); when it did not open, it raises the single `ValueError` with no
partially-populated result. -/
theorem c9_analyze_video_shape (cfg : VideoConfig) (isOpened : Bool) (stream : StreamData)
    (features : List String) (sampleRate : ℤ)
    (visionLoaded faceLoaded ocrLoaded : Bool)
    (detectObjects : Frame → Except String (List LabelRow))
    (detectFacesFn : Frame → Except String (List FaceRow))
    (extractTextFn : Frame → Except String (List TextRow))
    (caches : Caches) :
    (analyzeVideo cfg isOpened stream features sampleRate visionLoaded faceLoaded ocrLoaded
      detectObjects detectFacesFn extractTextFn caches).2 = true ∧
    (isOpened = false →
      analyzeVideo cfg isOpened stream features sampleRate visionLoaded faceLoaded ocrLoaded
        detectObjects detectFacesFn extractTextFn caches =
        ((.error "Cannot open video", caches), true)) ∧
    (isOpened = true →
      analyzeVideo cfg isOpened stream features sampleRate visionLoaded faceLoaded ocrLoaded
          detectObjects detectFacesFn extractTextFn caches =
        ((.ok (analyzeVideoOpened cfg stream features sampleRate visionLoaded faceLoaded
            ocrLoaded detectObjects detectFacesFn extractTextFn caches).1,
          (analyzeVideoOpened cfg stream features sampleRate visionLoaded faceLoaded
            ocrLoaded detectObjects detectFacesFn extractTextFn caches).2),
         true) ∧
      (∀ key ∈ ["metadata", "labels", "faces", "scenes", "text"],
        key ∈ resultKeys (analyzeVideoOpened cfg stream features sampleRate visionLoaded
          faceLoaded ocrLoaded detectObjects detectFacesFn extractTextFn caches).1)) := by
  refine ⟨?_, ?_, ?_⟩
  · cases isOpened <;> rfl
  · intro h
    subst h
    rfl
  · intro h
    subst h
    refine ⟨rfl, ?_⟩
    intro key hk
    simp only [resultKeys, List.mem_cons, List.not_mem_nil, or_false] at hk ⊢
    rcases hk with rfl | rfl | rfl | rfl | rfl <;> simp

/-- C9 witness: a closed stream raises the single failure (handle released),
and an opened degenerate stream (no readable frames) still yields the full
result shape. -/
theorem c9_analyze_video_shape_witness :
    analyzeVideo ⟨12, 960, false, 4, 17/2, 64⟩ false ⟨1, 0, fun _ => none⟩ [] 2
        false false false (fun _ => .ok []) (fun _ => .ok []) (fun _ => .ok [])
        ⟨[], [], []⟩ =
      ((.error "Cannot open video", ⟨[], [], []⟩), true) ∧
    analyzeVideo ⟨12, 960, false, 4, 17/2, 64⟩ true ⟨1, 0, fun _ => none⟩ [] 2
        false false false (fun _ => .ok []) (fun _ => .ok []) (fun _ => .ok [])
        ⟨[], [], []⟩ =
      ((.ok (analyzeVideoOpened ⟨12, 960, false, 4, 17/2, 64⟩ ⟨1, 0, fun _ => none⟩ [] 2
          false false false (fun _ => .ok []) (fun _ => .ok []) (fun _ => .ok [])
          ⟨[], [], []⟩).1,
        (analyzeVideoOpened ⟨12, 960, false, 4, 17/2, 64⟩ ⟨1, 0, fun _ => none⟩ [] 2
          false false false (fun _ => .ok []) (fun _ => .ok []) (fun _ => .ok [])
          ⟨[], [], []⟩).2),
       true) :=
  ⟨(c9_analyze_video_shape ⟨12, 960, false, 4, 17/2, 64⟩ false ⟨1, 0, fun _ => none⟩ [] 2
      false false false (fun _ => .ok []) (fun _ => .ok []) (fun _ => .ok [])
      ⟨[], [], []⟩).2.1 rfl,
   ((c9_analyze_video_shape ⟨12, 960, false, 4, 17/2, 64⟩ true ⟨1, 0, fun _ => none⟩ [] 2
      false false false (fun _ => .ok []) (fun _ => .ok []) (fun _ => .ok [])
      ⟨[], [], []⟩).2.2 rfl).1⟩

/-! ### C1: per-feature versus per-frame exception granularity -/

/-- C1 counterexample: with `labels` and `faces` both requested and loaded,
a raising labels provider makes the faces key absent for that frame even
though the faces provider succeeds — whereas with a succeeding labels
provider the very same faces call contributes its records.  This refutes
the claim that only the raising feature's contribution is dropped. -/
theorem c1_counterexample :
    (analyzeFrame 64 ⟨[], [], []⟩ ["labels", "faces"] true true true
        (fun _ => .error "model failure") (fun _ => .ok [⟨⟨0, 0, 1, 1⟩, 1⟩])
        (fun _ => .ok []) ⟨1, 1, [0]⟩ 0).1.faces = none ∧
    (analyzeFrame 64 ⟨[], [], []⟩ ["labels", "faces"] true true true
        (fun _ => .ok []) (fun _ => .ok [⟨⟨0, 0, 1, 1⟩, 1⟩])
        (fun _ => .ok []) ⟨1, 1, [0]⟩ 0).1.faces = some [⟨⟨0, 0, 1, 1⟩, 1, 0⟩] :=
  ⟨rfl, rfl⟩

/-- C1 (amended): exceptions from Capability Provider calls are caught at
frame granularity, not per feature: a provider call raises exactly when its
feature is active and the cache missed and the call errors; the raising
feature and every later feature (in labels → faces → text order) contribute
nothing for that frame while features already processed keep their results
and cache updates; and the loop continues — an opened analysis still
returns a single well-formed result. -/
theorem c1_frame_error_granularity (cap : ℕ) (caches : Caches) (features : List String)
    (visionLoaded faceLoaded ocrLoaded : Bool)
    (detectObjects : Frame → Except String (List LabelRow))
    (detectFacesFn : Frame → Except String (List FaceRow))
    (extractTextFn : Frame → Except String (List TextRow))
    (frame : Frame) (timestamp : ℚ) :
    (∀ (α β : Type) (cp : ℕ) (cache : Cache (List α)) (active : Bool) (name : String)
      (sg : Frame) (inferFn : Unit → Except String (List α)) (annotate : List α → β)
      (e : String),
      featureStep cp cache active name sg inferFn annotate = .error e ↔
        (active = true ∧ (cacheGet cp cache (name, sg)).1 = none ∧ inferFn () = .error e)) ∧
    (∀ e, featureStep cap caches.labelsCache (features.contains "labels" && visionLoaded)
        "labels" (frameSignature frame) (fun _ => detectObjects frame)
        (fun rows => annotateLabels rows timestamp) = .error e →
      analyzeFrame cap caches features visionLoaded faceLoaded ocrLoaded detectObjects
        detectFacesFn extractTextFn frame timestamp =
        ({ labels := none, faces := none, text := none }, caches)) ∧
    (∀ labelsRes labelsCache1 e,
      featureStep cap caches.labelsCache (features.contains "labels" && visionLoaded)
        "labels" (frameSignature frame) (fun _ => detectObjects frame)
        (fun rows => annotateLabels rows timestamp) = .ok (labelsRes, labelsCache1) →
      featureStep cap caches.facesCache (features.contains "faces" && faceLoaded)
        "faces" (frameSignature frame) (fun _ => detectFacesFn frame)
        (fun rows => annotateFaces rows timestamp) = .error e →
      analyzeFrame cap caches features visionLoaded faceLoaded ocrLoaded detectObjects
        detectFacesFn extractTextFn frame timestamp =
        ({ labels := labelsRes, faces := none, text := none },
         { caches with labelsCache := labelsCache1 })) ∧
    (∀ labelsRes labelsCache1 facesRes facesCache1 e,
      featureStep cap caches.labelsCache (features.contains "labels" && visionLoaded)
        "labels" (frameSignature frame) (fun _ => detectObjects frame)
        (fun rows => annotateLabels rows timestamp) = .ok (labelsRes, labelsCache1) →
      featureStep cap caches.facesCache (features.contains "faces" && faceLoaded)
        "faces" (frameSignature frame) (fun _ => detectFacesFn frame)
        (fun rows => annotateFaces rows timestamp) = .ok (facesRes, facesCache1) →
      featureStep cap caches.textCache (features.contains "text" && ocrLoaded)
        "text" (frameSignature frame) (fun _ => extractTextFn frame)
        (fun rows => annotateTexts rows timestamp) = .error e →
      analyzeFrame cap caches features visionLoaded faceLoaded ocrLoaded detectObjects
        detectFacesFn extractTextFn frame timestamp =
        ({ labels := labelsRes, faces := facesRes, text := none },
         { caches with labelsCache := labelsCache1, facesCache := facesCache1 })) ∧
    (∀ (cfg : VideoConfig) (stream : StreamData) (sampleRate : ℤ),
      (analyzeVideo cfg true stream features sampleRate visionLoaded faceLoaded ocrLoaded
        detectObjects detectFacesFn extractTextFn caches).1.1 =
        .ok (analyzeVideoOpened cfg stream features sampleRate visionLoaded faceLoaded
          ocrLoaded detectObjects detectFacesFn extractTextFn caches).1) := by
  refine ⟨?_, ?_, ?_, ?_, ?_⟩
  · intro α β cp cache active name sg inferFn annotate e
    unfold featureStep
    cases active with
    | false => simp
    | true =>
      simp only [if_pos rfl]
      rcases hget : cacheGet cp cache (name, sg) with ⟨o, c1⟩
      cases o with
      | some v =>
        simp only [cachedInference, hget]
        simp [hget]
      | none =>
        cases hout : inferFn () with
        | error e2 =>
          simp only [cachedInference, hget, hout]
          simp [hget, hout]
        | ok v =>
          simp only [cachedInference, hget, hout]
          simp [hget, hout]
  · intro e h1
    unfold analyzeFrame
    rw [h1]
  · intro labelsRes labelsCache1 e h1 h2
    unfold analyzeFrame
    rw [h1, h2]
  · intro labelsRes labelsCache1 facesRes facesCache1 e h1 h2 h3
    unfold analyzeFrame
    rw [h1, h2, h3]
  · intro cfg stream sampleRate
    rfl

/-- C1 witness: with labels and faces requested, a raising labels provider
drops the whole frame's contributions (both keys absent, caches untouched). -/
theorem c1_frame_error_granularity_witness :
    analyzeFrame 64 ⟨[], [], []⟩ ["labels", "faces"] true true true
        (fun _ => .error "model failure") (fun _ => .ok [⟨⟨0, 0, 1, 1⟩, 1⟩])
        (fun _ => .ok []) ⟨1, 1, [0]⟩ 0 =
      ({ labels := none, faces := none, text := none }, ⟨[], [], []⟩) :=
  (c1_frame_error_granularity 64 ⟨[], [], []⟩ ["labels", "faces"] true true true
    (fun _ => .error "model failure") (fun _ => .ok [⟨⟨0, 0, 1, 1⟩, 1⟩]) (fun _ => .ok [])
    ⟨1, 1, [0]⟩ 0).2.1 "model failure" rfl

end VideoPipeline
